import Mathlib

/-!
Verification of the sales-order chat agent (aula3): a shallow embedding of
the orchestration agent's state handling, the mapping agent's field
resolution, and the formatting/normalization utilities, together with
theorems settling the specification claims about them.

Conventions of the embedding:
* Python `None` is `Option.none`; nullable values are `Option PyVal`.
* A Python dict is an association list `List (String × _)` in insertion
  order; dict assignment updates the first matching key in place and
  appends otherwise, mirroring CPython semantics for unique-key dicts.
* Python strings are Lean `String`s; character-level operations are
  defined on `List Char`.
* The external `unidecode` library is an opaque parameter `ud` of the
  normalization function.  The two facts used about it (its output is
  ASCII, and it is the identity on ASCII input) are explicit hypotheses
  where needed; `ud_ascii_model` is one concrete instance.

The file is organized as definitions first, then the theorems.
-/

namespace SalesAgent

/-- A scalar Python value as it occurs in the extracted/mapped records.
`real` stands for Python floats (exact rationals here; no claim depends on
rounding). -/
inductive PyVal where
  | str (s : String)
  | int (n : Int)
  | real (q : Rat)
  | bool (b : Bool)
deriving Repr, DecidableEq

/-- A Python dict with string keys and nullable scalar values, in insertion
order. -/
abbrev PyDict := List (String × Option PyVal)

/-- A single straight quote, written by code point to keep the source free
of quote characters. -/
def sq : String := "\x27"

/-! ### Character-level primitives shared by the string utilities -/

/-- Whitespace for Python `str.strip()` / regex `\s` restricted to the ASCII
range (the range relevant after `unidecode`): TAB..CR, FS..US and space. -/
def isAsciiSpace (c : Char) : Bool :=
  (9 ≤ c.toNat && c.toNat ≤ 13) || (28 ≤ c.toNat && c.toNat ≤ 32)

/-- The regex character class `[a-z]`. -/
def isLowerAlpha (c : Char) : Bool :=
  97 ≤ c.toNat && c.toNat ≤ 122

/-- Python `str.lower()` on one ASCII character. -/
def pyLowerChar (c : Char) : Char :=
  if 65 ≤ c.toNat ∧ c.toNat ≤ 90 then Char.ofNat (c.toNat + 32) else c

/-- Python `str.upper()` on one ASCII character. -/
def pyUpperChar (c : Char) : Char :=
  if 97 ≤ c.toNat ∧ c.toNat ≤ 122 then Char.ofNat (c.toNat - 32) else c

/-- Python `str.lower()` (faithful on ASCII input, the range of `unidecode`). -/
def pyLower (s : String) : String := ⟨s.data.map pyLowerChar⟩

/-- Python `str.upper()` (faithful on ASCII input). -/
def pyUpper (s : String) : String := ⟨s.data.map pyUpperChar⟩

/-- Removing leading whitespace, as in Python `str.lstrip()`. -/
def lstripList (l : List Char) : List Char := l.dropWhile isAsciiSpace

/-- Removing trailing whitespace, as in Python `str.rstrip()`. -/
def rstripList : List Char → List Char
  | [] => []
  | c :: rest =>
    if (rstripList rest).isEmpty then (if isAsciiSpace c then [] else [c])
    else c :: rstripList rest

/-- Python `str.strip()`. -/
def stripList (l : List Char) : List Char := rstripList (lstripList l)

/-- Python `str.strip()` on strings. -/
def pyStrip (s : String) : String := ⟨stripList s.data⟩

/-- One pass of `re.sub(r'\s+', ' ', _)`: each maximal whitespace run is
replaced by a single space.  The flag records whether the previous character
was part of a whitespace run. -/
def collapseGo (prevSpace : Bool) : List Char → List Char
  | [] => []
  | c :: rest =>
    if isAsciiSpace c then
      if prevSpace then collapseGo true rest
      else ' ' :: collapseGo true rest
    else c :: collapseGo false rest

/-- `re.sub(r'\s+', ' ', _)`. -/
def collapseWs (l : List Char) : List Char := collapseGo false l

/-- Does an optional character match `[a-z]`? -/
def lowerOpt : Option Char → Bool
  | some c => isLowerAlpha c
  | none => false

/-- One pass of `re.sub(r'(?<=[a-z])\.(?=[a-z])', ' ', _)`.  The match is a
single `'.'` with zero-width context conditions, so each dot of the input is
replaced independently; `prev` is the original preceding character
(regex matching proceeds over the original string). -/
def dotSubGo (prev : Option Char) : List Char → List Char
  | [] => []
  | c :: rest =>
    (if c = '.' && lowerOpt prev && lowerOpt rest.head? then ' ' else c) ::
      dotSubGo (some c) rest

/-- `re.sub(r'(?<=[a-z])\.(?=[a-z])', ' ', _)`. -/
def dotSub (l : List Char) : List Char := dotSubGo none l

/-- `str.replace('-', ' ')` on one character. -/
def hyphenToSpace (c : Char) : Char := if c = '-' then ' ' else c

/-- `normalize_string` (src/utils/normalization.py) for a non-`None` input,
on character lists.  `ud` stands for the external `unidecode` function. -/
def normalizeList (ud : List Char → List Char) (remove_hyphens : Bool)
    (l : List Char) : List Char :=
  let n0 := (ud l).map pyLowerChar
  let n1 := stripList n0
  let n2 := collapseWs n1
  let n3 := dotSub n2
  let n4 :=
    if remove_hyphens then stripList (collapseWs (n3.map hyphenToSpace)) else n3
  if n4 = "avista".data then "a vista".data else n4

/-- `normalize_string` on a string argument (the `try` body never raises for
string input, so the `except` fallback is unreachable). -/
def normalize_string_str (ud : List Char → List Char) (remove_hyphens : Bool)
    (s : String) : String :=
  ⟨normalizeList ud remove_hyphens s.data⟩

/-- `normalize_string` with the nullable signature of the Python function:
`None` input yields `None`. -/
def normalize_string (ud : List Char → List Char) (remove_hyphens : Bool) :
    Option String → Option String
  | none => none
  | some s => some (normalize_string_str ud remove_hyphens s)

/-- A concrete stand-in for `unidecode`: keep ASCII characters, drop the
rest.  It satisfies both facts assumed of the library. -/
def ud_ascii_model (l : List Char) : List Char :=
  l.filter (fun c => c.toNat < 128)

/-! Normal-form predicates for the output of `normalize_string`, used to
prove its idempotence: every transformation stage of a second pass is the
identity on strings satisfying them. -/

/-- An ASCII character. -/
def isAsciiChar (c : Char) : Bool := c.toNat < 128

/-- A character that `unidecode` (on ASCII) and `str.lower()` both leave
unchanged: ASCII and not an uppercase letter. -/
def stableChar (c : Char) : Bool :=
  c.toNat < 128 && (c.toNat < 65 || 90 < c.toNat)

/-- The head, if any, is not whitespace. -/
def headNotSpace : List Char → Bool
  | [] => true
  | c :: _ => !isAsciiSpace c

/-- The last character, if any, is not whitespace. -/
def lastNotSpace : List Char → Bool
  | [] => true
  | [c] => !isAsciiSpace c
  | _ :: c :: rest => lastNotSpace (c :: rest)

/-- Every whitespace character is a plain space. -/
def spacesArePlain (l : List Char) : Bool :=
  l.all (fun c => !isAsciiSpace c || c = ' ')

/-- Is the head a whitespace character? -/
def spaceHead : List Char → Bool
  | [] => false
  | c :: _ => isAsciiSpace c

/-- No two adjacent whitespace characters. -/
def noTwoSpaces : List Char → Bool
  | [] => true
  | a :: rest => !(isAsciiSpace a && spaceHead rest) && noTwoSpaces rest

/-- Does the junction `prev = a`, list `l` start with a dot that the dot
substitution would replace (a dot with lowercase letters on both sides)? -/
def dotHeadBad (a : Char) : List Char → Bool
  | b :: rest => b = '.' && isLowerAlpha a && lowerOpt rest.head?
  | [] => false

/-- No occurrence of a dot with lowercase letters on both sides. -/
def noLetterDotLetter : List Char → Bool
  | [] => true
  | a :: rest => !(dotHeadBad a rest) && noLetterDotLetter rest

/-- No hyphen character. -/
def noHyphen (l : List Char) : Bool := l.all (fun c => !(c = '-'))

/-! ### C1 — orchestrator terminal states (src/agents/orchestration_agent.py) -/

/-- The `mapping_issues` sub-dictionary of the orchestrator state; entries
are issue dicts, which the terminal-state handlers never inspect. -/
structure MappingIssues where
  avisos : List PyDict
  erros : List PyDict
  ambiguidades : List PyDict
deriving Repr, DecidableEq

/-- The persisted conversation state owned by `OrchestrationAgent`
(`self.state`), with the fields written by `_reset_state_data`. -/
structure OrchState where
  request_data : PyDict
  mapping_issues : MappingIssues
  last_question_context : Option String
  last_asked_fields : Option (List String)
  pending_confirmation : Bool
  pending_ambiguity : Option PyDict
  pending_confirmation_payload : Option PyDict
  current_original_input_text : Option String
deriving Repr, DecidableEq

/-- `_reset_state_data`: the fresh Collecting state. -/
def reset_state_data : OrchState where
  request_data := []
  mapping_issues := ⟨[], [], []⟩
  last_question_context := none
  last_asked_fields := none
  pending_confirmation := false
  pending_ambiguity := none
  pending_confirmation_payload := none
  current_original_input_text := none

/-- The dictionary returned by the response-formatting helpers. -/
structure AgentResponse where
  status : String
  message : String
  payload : Option PyDict := none
deriving Repr, DecidableEq

/-- `_format_error`: returns the error response; the reset call in its body
is commented out in the source, so the state is left untouched. -/
def format_error (state : OrchState) (error_message : String) :
    OrchState × AgentResponse :=
  (state, { status := "error", message := "Ocorreu um erro: " ++ error_message })

/-- `_format_abort`: resets the state and reports cancellation. -/
def format_abort (_state : OrchState) : OrchState × AgentResponse :=
  (reset_state_data, { status := "aborted", message := "Solicitação cancelada." })

/-- `_format_confirmed_for_creation`: returns the frozen payload and resets
the state before returning. -/
def format_confirmed_for_creation (state : OrchState) :
    OrchState × AgentResponse :=
  (reset_state_data,
   { status := "confirmed_for_creation"
     message := "Confirmação recebida. Preparando para criar o chamado..."
     payload := state.pending_confirmation_payload })

/-- A reachable state in which a confirmation is pending. -/
def c1_sample_state : OrchState :=
  { reset_state_data with
    pending_confirmation := true
    last_question_context := some "confirmation_response"
    request_data := [("Planta", some (PyVal.str "PDL"))] }

/-! ### C2 — cadence year inference (src/utils/formatting.py) -/

/-- The month-name table `mes_map`. -/
def mes_map : List (String × String) :=
  [("jan", "01"), ("janeiro", "01"), ("fev", "02"), ("fevereiro", "02"),
   ("mar", "03"), ("marco", "03"), ("março", "03"), ("abr", "04"), ("abril", "04"),
   ("mai", "05"), ("maio", "05"), ("jun", "06"), ("junho", "06"),
   ("jul", "07"), ("julho", "07"), ("ago", "08"), ("agosto", "08"),
   ("set", "09"), ("setembro", "09"), ("out", "10"), ("outubro", "10"),
   ("nov", "11"), ("novembro", "11"), ("dez", "12"), ("dezembro", "12")]

/-- Python `int()` on the strings reachable from the year-capturing regex
groups (`\d{2,4}`): digit-only strings parse in base 10; anything else
raises `ValueError`, modeled as `none`. -/
def py_int_of_digits (s : String) : Option Nat :=
  if s.data ≠ [] ∧ s.data.all Char.isDigit then
    some (s.data.foldl (fun a c => a * 10 + (c.toNat - 48)) 0)
  else none

/-- `_determine_year`: returns
`(year_to_use, new_current_year, new_previous_month_num)`.  The final
unconditional `new_previous_month_num = mes_num_int` of the source makes
every branch end with the current month as the new previous month. -/
def determine_year (ano_str : Option String) (mes_num_int : Nat)
    (current_year_ref : Nat) (previous_month_num_ref : Nat) :
    Nat × Nat × Nat :=
  let infer : Nat × Nat × Nat :=
    if mes_num_int < previous_month_num_ref ∧ previous_month_num_ref ≠ 0 then
      (current_year_ref + 1, current_year_ref + 1, mes_num_int)
    else
      (current_year_ref, current_year_ref, mes_num_int)
  match ano_str with
  | none => infer
  | some s =>
    match (if s.length = 2 then py_int_of_digits ("20" ++ s)
           else if s.length = 4 then py_int_of_digits s
           else none) with
    | some ano_int =>
      if 2000 ≤ ano_int ∧ ano_int < 2100 then (ano_int, ano_int, mes_num_int)
      else infer
    | none => infer

/-- The year-threading of the `format_cadencia` line loop restricted to
lines without an explicit year: each month number is paired with the year
`_determine_year` assigns, threading the running year and previous month. -/
def assign_years : List Nat → Nat → Nat → List (Nat × Nat)
  | [], _, _ => []
  | m :: rest, cy, pm =>
    let r := determine_year none m cy pm
    (m, r.1) :: assign_years rest r.2.1 r.2.2

/-! ### C3 — cadence serialization (src/utils/formatting.py, end of
`format_cadencia`) -/

/-- One entry of `output_cadencia_items`. -/
structure CadItem where
  mes : Nat
  ano : Nat
  texto : String
deriving Repr, DecidableEq

/-- `str(n).zfill(2)` for the month numbers 0..99. -/
def zfill2 (n : Nat) : String := if n < 10 then "0" ++ toString n else toString n

/-- An entry as appended by the parsing loop: the canonical two-digit month,
the year and the cleaned quantity serialized as `MM.YYYY:QTY ton`. -/
def mk_cad_item (mes ano : Nat) (valor_limpo : String) : CadItem :=
  ⟨mes, ano, zfill2 mes ++ "." ++ toString ano ++ ":" ++ valor_limpo ++ " ton"⟩

/-- Strict lexicographic order on the sort key `(ano, mes)`. -/
def cad_key_lt (a b : CadItem) : Bool :=
  a.ano < b.ano || (a.ano == b.ano && a.mes < b.mes)

/-- Reflexive order on the sort key `(ano, mes)`. -/
def cad_key_le (a b : CadItem) : Bool := !(cad_key_lt b a)

/-- Stable insertion: a later element goes after all earlier elements with
the same key, as in Python list `sort`. -/
def cad_insert (x : CadItem) : List CadItem → List CadItem
  | [] => [x]
  | y :: ys => if cad_key_le x y then x :: y :: ys else y :: cad_insert x ys

/-- `output_cadencia_items.sort(key=lambda x: (x["ano"], x["mes"]))`:
a stable ascending sort by `(ano, mes)`. -/
def cad_sort : List CadItem → List CadItem
  | [] => []
  | x :: xs => cad_insert x (cad_sort xs)

/-- The tail of `format_cadencia` (lines 544-549): empty item list yields
`None`, otherwise the items are sorted by `(ano, mes)` and their `texto`
fields joined with newlines. -/
def format_cadencia_tail (output_cadencia_items : List CadItem) : Option String :=
  if output_cadencia_items.isEmpty then none
  else some (String.intercalate "\n" ((cad_sort output_cadencia_items).map CadItem.texto))

/-! ### C4 — conditional freight validation
(src/agents/orchestration_agent.py, `_validate_frete_condicional`) -/

/-- The freight-exempt incoterms. -/
def frete_exempt : List String := ["FOB", "TPD"]

/-- `str(incoterms_value).upper() if incoterms_value else ''`
(for the string-or-`None` values the extractor produces). -/
def incoterms_upper (incoterms_value : Option String) : String :=
  match incoterms_value with
  | none => ""
  | some s => if s = "" then "" else pyUpper s

/-- The `frete_ausente` computation: `None`, an empty or "null" string, or
a numeric zero with a non-exempt incoterm count as absent.
Python `bool` is an `int` subtype, so `False == 0`. -/
def frete_ausente (incoterms : String) (preco_frete : Option PyVal) : Bool :=
  match preco_frete with
  | none => true
  | some (PyVal.str s) =>
    let v := pyStrip s
    v = "" || pyLower v = "null"
  | some (PyVal.int n) =>
    if n = 0 then !(frete_exempt.contains incoterms) else false
  | some (PyVal.real q) =>
    if q = 0 then !(frete_exempt.contains incoterms) else false
  | some (PyVal.bool b) =>
    if b = false then !(frete_exempt.contains incoterms) else false

/-- `_validate_frete_condicional`: appends `Preço Frete` to the missing
lists when a non-exempt incoterm is present and the freight price is
absent. -/
def validate_frete_condicional (incoterms_value : Option String)
    (preco_frete : Option PyVal) (missing_keys missing_msgs : List String) :
    List String × List String :=
  if incoterms_upper incoterms_value ≠ "" ∧
      frete_exempt.contains (incoterms_upper incoterms_value) = false ∧
      frete_ausente (incoterms_upper incoterms_value) preco_frete = true then
    if missing_keys.contains "Preço Frete" = false then
      (missing_keys ++ ["Preço Frete"],
       missing_msgs ++
         ["Preço Frete (obrigatório para Incoterms " ++ sq ++
          incoterms_upper incoterms_value ++ sq ++ ")"])
    else (missing_keys, missing_msgs)
  else (missing_keys, missing_msgs)

/-! ### C5 — duplicate tax-id ambiguity
(src/agents/mapping_agent.py, `_map_cliente`, search by CNPJ/CPF) -/

/-- One row of the `precofixo` reference sheet with the columns read by
`_map_cliente`: client code (`Cliente`), client name (`Nome Cliente`) and
the tax-id normalized at load time (`CNPJ_CPF_NORMALIZADO`). -/
structure ClienteRow where
  cliente : String
  nome_cliente : String
  cnpj_cpf_normalizado : String
deriving Repr, DecidableEq

/-- The tax-id normalization of the source: `re.sub` removing every dot,
slash and hyphen character from `str(x)`. -/
def cnpj_normalize (s : String) : String :=
  ⟨s.data.filter (fun c => !(c = '.' || c = '/' || c = '-'))⟩

/-- One option of a client ambiguity. -/
structure ClienteOption where
  nome : String
  codigo : String
  cnpj_cpf : Option String
deriving Repr, DecidableEq

/-- A client ambiguity issue as appended to `mapping_issues`. -/
structure ClienteAmbiguity where
  campo : String
  original_field_name : String
  valor_original : String
  mensagem : String
  opcoes : List ClienteOption
deriving Repr, DecidableEq

/-- The question text of the duplicate-tax-id ambiguity (with the trailing
`.strip()` of the source). -/
def cliente_dup_mensagem (cnpj_norm : String) (opcoes : List ClienteOption) :
    String :=
  pyStrip ("O CNPJ/CPF " ++ sq ++ cnpj_norm ++ sq ++
    " está associado a múltiplos clientes. " ++
    "Por favor, escolha o correto (informe o número da opção ou o Código do Cliente):\n" ++
    String.join (opcoes.enum.map (fun p =>
      toString (p.1 + 1) ++ ". " ++ p.2.nome ++
      " (Código do Cliente: " ++ p.2.codigo ++ ")\n")))

/-- Result of the search-by-tax-id stage of `_map_cliente` (lines 557-632):
a unique (possibly code-disambiguated) match adopts the sheet row, a
duplicate tax-id that cannot be narrowed emits an ambiguity and returns
from `_map_cliente` at once, and no match falls through to the
name-matching stages. -/
inductive ClienteEtapa1Result where
  | found (codigo cnpj nome : String)
  | ambiguity (amb : ClienteAmbiguity)
  | fallthrough
deriving Repr, DecidableEq

/-- The matching rows for a supplied tax-id. -/
def cliente_matches (df_precofixo : List ClienteRow) (cnpj_cpf_extraido : String) :
    List ClienteRow :=
  df_precofixo.filter
    (fun r => r.cnpj_cpf_normalizado = cnpj_normalize cnpj_cpf_extraido)

/-- The search-by-tax-id stage of `_map_cliente`, entered when a tax-id was
extracted and the preceding code-consistency stage did not adopt a row
(with no supplied client code that stage is skipped entirely). -/
def cliente_etapa1 (df_precofixo : List ClienteRow) (cnpj_cpf_extraido : String)
    (codigo_cliente_extraido : Option String) : ClienteEtapa1Result :=
  let cnpj_norm := cnpj_normalize cnpj_cpf_extraido
  match cliente_matches df_precofixo cnpj_cpf_extraido with
  | [] => ClienteEtapa1Result.fallthrough
  | [r] => ClienteEtapa1Result.found r.cliente r.cnpj_cpf_normalizado r.nome_cliente
  | r1 :: r2 :: rs =>
    let ms := r1 :: r2 :: rs
    let amb : ClienteEtapa1Result :=
      let opcoes := ms.map (fun r =>
        ClienteOption.mk r.nome_cliente r.cliente (some cnpj_norm))
      ClienteEtapa1Result.ambiguity
        ⟨"Código do cliente", "Cliente", cnpj_norm,
         cliente_dup_mensagem cnpj_norm opcoes, opcoes⟩
    match codigo_cliente_extraido with
    | some s =>
      if s ≠ "" ∧ pyStrip s ≠ "" then
        match ms.filter (fun r => r.cliente = s) with
        | [r] => ClienteEtapa1Result.found r.cliente r.cnpj_cpf_normalizado r.nome_cliente
        | _ => amb
      else amb
    | none => amb

/-- The client-identity slice of the draft record. -/
structure ClienteFields where
  cliente : Option String
  cnpj_cpf : Option String
  nome_do_cliente : Option String
  codigo_do_cliente : Option String
deriving Repr, DecidableEq

/-- How the stage result is applied to `mapped_data`: only an adopted row
writes the draft; an ambiguity returns with the draft untouched. -/
def apply_cliente_etapa1 (r : ClienteEtapa1Result) (md : ClienteFields) :
    ClienteFields :=
  match r with
  | ClienteEtapa1Result.found codigo cnpj nome =>
    { md with
      codigo_do_cliente := some codigo
      cnpj_cpf := some cnpj
      nome_do_cliente := some nome
      cliente := some nome }
  | ClienteEtapa1Result.ambiguity _ => md
  | ClienteEtapa1Result.fallthrough => md

/-! ### C6 — payment-method keyword resolution
(src/agents/mapping_agent.py, `_map_forma_pagamento`, steps 0-2) -/

/-- One option of a payment-method ambiguity. -/
structure FormaOption where
  descricao : String
  codigo : String
deriving Repr, DecidableEq

/-- A payment-method ambiguity issue. -/
structure FormaAmbiguity where
  campo : String
  valor_original : String
  mensagem : String
  opcoes : List FormaOption
deriving Repr, DecidableEq

/-- The preloaded payment-method reference data: valid `MP` codes, the
direct normalized-term map, the keyword map (one keyword may carry several
codes) and the `(MP, Significado)` rows of the sheet. -/
structure FormaCtx where
  valid_forma_codes : List String
  forma_map_norm_to_code : List (String × String)
  forma_keyword_map_norm_to_codes : List (String × List String)
  df_forma : List (String × String)
deriving Repr, DecidableEq

/-- The option built for one candidate code: the row's `Significado` when
the code is found in the sheet, otherwise the fallback text. -/
def forma_option_of_code (df_forma : List (String × String)) (code : String) :
    FormaOption :=
  match df_forma.find? (fun row => row.1 == code) with
  | some row => ⟨row.2, code⟩
  | none => ⟨"Código " ++ code, code⟩

/-- The question text of the keyword ambiguity. -/
def forma_amb_mensagem (forma_input_original : String)
    (opcoes : List FormaOption) : String :=
  "A forma de pagamento " ++ sq ++ forma_input_original ++ sq ++
  " pode se referir a mais de uma opção. Qual delas você quis dizer?\n" ++
  String.intercalate "\n" (opcoes.enum.map (fun p =>
    toString (p.1 + 1) ++ ". " ++ p.2.descricao ++
    " (Código: " ++ p.2.codigo ++ ")")) ++
  "\n(Responda com o número ou o código)"

/-- Result of steps 0-2 of `_map_forma_pagamento`: an input that is already
a valid code is kept, a direct-term or single-code keyword match adopts the
code, a multi-code keyword emits an ambiguity and returns at once (the
field keeps its raw value), and everything else falls through to the
split/contains stages. -/
inductive FormaResult where
  | unchanged_valid
  | mapped (code : String)
  | keyword_ambiguity (amb : FormaAmbiguity)
  | fallthrough
deriving Repr, DecidableEq

/-- Steps 0-2 of `_map_forma_pagamento` (lines 951-1001). -/
def map_forma_pagamento_head (ud : List Char → List Char) (ctx : FormaCtx)
    (forma_input_original : String) : FormaResult :=
  if ctx.valid_forma_codes.contains forma_input_original then
    FormaResult.unchanged_valid
  else
    let forma_norm := normalize_string_str ud true forma_input_original
    if forma_norm = "" then FormaResult.fallthrough
    else
      match ctx.forma_map_norm_to_code.lookup forma_norm with
      | some code => FormaResult.mapped code
      | none =>
        match ctx.forma_keyword_map_norm_to_codes.lookup forma_norm with
        | some [code] => FormaResult.mapped code
        | some (c1 :: c2 :: cs) =>
          let possible_codes := c1 :: c2 :: cs
          let opcoes := possible_codes.map (forma_option_of_code ctx.df_forma)
          FormaResult.keyword_ambiguity
            ⟨"Forma de Pagamento", forma_input_original,
             forma_amb_mensagem forma_input_original opcoes, opcoes⟩
        | some [] => FormaResult.fallthrough
        | none => FormaResult.fallthrough

/-- The value the field holds after the modeled steps: only `mapped` writes
a new value; the ambiguity early-return keeps the raw input. -/
def forma_value_after (r : FormaResult) (forma_input_original : String) : String :=
  match r with
  | FormaResult.unchanged_valid => forma_input_original
  | FormaResult.mapped code => code
  | FormaResult.keyword_ambiguity _ => forma_input_original
  | FormaResult.fallthrough => forma_input_original

/-! ### C7 — draft-record merge
(src/agents/orchestration_agent.py, `_update_request_data`) -/

/-- Python dict assignment `d[k] = v`: update in place when present, append
otherwise. -/
def py_dict_set (d : PyDict) (k : String) (v : Option PyVal) : PyDict :=
  if d.any (fun p => p.1 == k) then
    d.map (fun p => if p.1 = k then (k, v) else p)
  else d ++ [(k, v)]

/-- Python `d.get(k)` (defaults to `None` both when the key is absent and
when it holds `None`). -/
def py_dict_get (d : PyDict) (k : String) : Option PyVal :=
  (d.lookup k).join

/-- The loop body of `_update_request_data` for one `(key, value)` item.
The second branch is the verbatim `elif` of the source; it is unreachable
because the first condition already accepts every non-`None` value. -/
def update_request_step (acc : PyDict) (kv : String × Option PyVal) : PyDict :=
  if kv.2 ≠ none ∨ acc.any (fun p => p.1 == kv.1) = false ∨
      py_dict_get acc kv.1 = none then
    py_dict_set acc kv.1 kv.2
  else if (kv.2 = some (PyVal.str "")) ∧ py_dict_get acc kv.1 ≠ none then
    py_dict_set acc kv.1 kv.2
  else acc

/-- `_update_request_data` restricted to a non-empty update (the `None` and
empty-dict guard of the source merely returns early). -/
def update_request_data (current new_data : PyDict) : PyDict :=
  new_data.foldl update_request_step current

/-! ### C9 — default keys of the mapped record
(src/agents/mapping_agent.py, `_ensure_default_keys` and the tail of `map`) -/

/-- The fixed field set of the mapped record. -/
def default_keys : List String :=
  ["Cliente", "CNPJ/CPF", "Planta", "Condição de Pagamento",
   "Forma de Pagamento", "Código do Material", "Quantidade Total",
   "Cadência", "Vendedor", "Cidade", "Data de Negociação",
   "Incoterms", "Preço Frete", "Valor", "Nome do cliente",
   "Código do cliente", "Email do vendedor", "Campanha"]

/-- Python `d.setdefault(k, v)`. -/
def py_setdefault (d : PyDict) (k : String) (v : Option PyVal) : PyDict :=
  if d.any (fun p => p.1 == k) then d else d ++ [(k, v)]

/-- `_ensure_default_keys`. -/
def ensure_default_keys (d : PyDict) : PyDict :=
  default_keys.foldl (fun acc k => py_setdefault acc k none) d

/-- The tail of `map` (lines 1100-1102): the explicit
`setdefault("Email do vendedor", None)` followed by `_ensure_default_keys`,
applied to the record produced by the per-field mapping stages (which only
assign keys, never delete them). -/
def map_finalize_keys (d : PyDict) : PyDict :=
  ensure_default_keys (py_setdefault d "Email do vendedor" none)

/-! ### C10 — fuzzy client ambiguity truncation
(src/agents/mapping_agent.py, `_map_cliente`, fuzzy stage) -/

/-- One qualified fuzzy candidate as collected by the fuzzy stage. -/
structure FuzzyCand where
  score : Nat
  tie_break_score : Nat
  nome_original_planilha : String
  codigo_cliente_planilha : Option String
  cnpj_planilha : Option String
deriving Repr, DecidableEq

/-- `MAX_AMBIGUITY_OPTIONS` of the source. -/
def MAX_AMBIGUITY_OPTIONS : Nat := 5

/-- Strict descending comparison on the sort key
`(score, tie_break_score)`. -/
def fz_key_gt (a b : FuzzyCand) : Bool :=
  b.score < a.score || (b.score == a.score && b.tie_break_score < a.tie_break_score)

/-- Reflexive descending comparison on the sort key. -/
def fz_key_ge (a b : FuzzyCand) : Bool := !(fz_key_gt b a)

/-- Stable insertion for the descending sort (equal keys keep their
original order, as Python `sort(..., reverse=True)` does). -/
def fz_insert (x : FuzzyCand) : List FuzzyCand → List FuzzyCand
  | [] => [x]
  | y :: ys => if fz_key_ge x y then x :: y :: ys else y :: fz_insert x ys

/-- `potential_fuzzy_matches_raw.sort(key=..., reverse=True)`. -/
def fz_sort : List FuzzyCand → List FuzzyCand
  | [] => []
  | x :: xs => fz_insert x (fz_sort xs)

/-- `final_qualified_matches`: the sorted candidates whose tie-break score
reaches `TIE_BREAK_SCORE_THRESHOLD` (85), kept in sorted order. -/
def fuzzy_qualified (cands : List FuzzyCand) : List FuzzyCand :=
  (fz_sort cands).filter (fun m => 85 ≤ m.tie_break_score)

/-- One option of the fuzzy ambiguity. -/
structure FuzzyClientOption where
  nome : String
  codigo : Option String
  cnpj_cpf : Option String
  similaridade : Nat
  similaridade_inicio : Nat
deriving Repr, DecidableEq

/-- The option built from one qualified match. -/
def mk_fuzzy_option (m : FuzzyCand) : FuzzyClientOption :=
  ⟨m.nome_original_planilha, m.codigo_cliente_planilha, m.cnpj_planilha,
   m.score, m.tie_break_score⟩

/-- Python string interpolation of a possibly-`None` value. -/
def py_show_opt (v : Option String) : String :=
  match v with
  | some s => s
  | none => "None"

/-- The parts of the fuzzy ambiguity question; the count of candidates
beyond the first `MAX_AMBIGUITY_OPTIONS` appears only here, as the final
part. -/
def fuzzy_message_parts (nome_cliente_extraido : String)
    (opcoes : List FuzzyClientOption) (qualified_len : Nat) : List String :=
  ("Encontrei múltiplos clientes com nomes similares a " ++ sq ++
     nome_cliente_extraido ++ sq ++
     " (correspondência aproximada e início similar). Por favor, escolha o correto (informe o número da opção ou o Código do Cliente):")
  :: (opcoes.enum.map (fun p =>
       toString (p.1 + 1) ++ ". " ++ p.2.nome ++
       " (Cód: " ++ py_show_opt p.2.codigo ++
       ", CNPJ: " ++ py_show_opt p.2.cnpj_cpf ++
       ", Sim: " ++ toString p.2.similaridade ++
       "% / Início: " ++ toString p.2.similaridade_inicio ++ "%)"))
  ++ (if MAX_AMBIGUITY_OPTIONS < qualified_len then
        ["... e mais " ++ toString (qualified_len - MAX_AMBIGUITY_OPTIONS) ++
         " outros."]
      else [])

/-- The fuzzy ambiguity issue. -/
structure FuzzyAmbiguity where
  campo : String
  original_field_name : String
  valor_original : String
  mensagem : String
  opcoes : List FuzzyClientOption
deriving Repr, DecidableEq

/-- Outcome of the fuzzy stage once the qualified matches are known: a
single qualified match is adopted, several produce an ambiguity listing at
most `MAX_AMBIGUITY_OPTIONS` options, none falls through. -/
inductive FuzzyOutcome where
  | adopt (m : FuzzyCand)
  | ambiguity (amb : FuzzyAmbiguity)
  | nothing
deriving Repr, DecidableEq

/-- The fuzzy stage of `_map_cliente` (lines 726-781) after scoring. -/
def fuzzy_match_outcome (nome_cliente_extraido : String)
    (cands : List FuzzyCand) : FuzzyOutcome :=
  match fuzzy_qualified cands with
  | [] => FuzzyOutcome.nothing
  | [m] => FuzzyOutcome.adopt m
  | m1 :: m2 :: ms =>
    let q := m1 :: m2 :: ms
    let opcoes := (q.take MAX_AMBIGUITY_OPTIONS).map mk_fuzzy_option
    FuzzyOutcome.ambiguity
      ⟨"Código do cliente", "Cliente", nome_cliente_extraido,
       String.intercalate "\n" (fuzzy_message_parts nome_cliente_extraido opcoes q.length),
       opcoes⟩

/-! ## Theorems -/

theorem charToNat_ofNat (n : Nat) (h : n < 55296) : (Char.ofNat n).toNat = n := by
  have hv : n.isValidChar := Or.inl h
  rw [Char.ofNat, dif_pos hv]
  simp [Char.ofNatAux, Char.toNat, UInt32.toNat, BitVec.toNat_ofNatLt]

/-- C1: counterexample.  At the concrete state `c1_sample_state`,
`_format_error` returns status "error" yet leaves the stored orchestrator
state unchanged, which differs from the freshly reset state — so entering
Terminal(Error) does not reset the persisted conversation state. -/
theorem c1_error_no_reset_counterexample :
    (format_error c1_sample_state "falha").2.status = "error" ∧
    (format_error c1_sample_state "falha").1 = c1_sample_state ∧
    c1_sample_state ≠ reset_state_data := by
  refine ⟨rfl, rfl, ?_⟩
  decide

/-- C1 (amended): entering Terminal(Completed) via
`_format_confirmed_for_creation` or Terminal(Aborted) via `_format_abort`
resets the stored state to the fresh Collecting state before returning,
while `_format_error` (status "error") leaves the stored state unchanged;
clearing persisted state after an error is left to the callers. -/
theorem c1_terminal_reset_amended (s : OrchState) (m : String) :
    (format_abort s).1 = reset_state_data ∧
    (format_abort s).2.status = "aborted" ∧
    (format_confirmed_for_creation s).1 = reset_state_data ∧
    (format_confirmed_for_creation s).2.status = "confirmed_for_creation" ∧
    (format_error s m).1 = s ∧
    (format_error s m).2.status = "error" :=
  ⟨rfl, rfl, rfl, rfl, rfl, rfl⟩

/-- C2: with no explicit year, a month number strictly below the previously
processed month (rollover) is assigned the running year plus one, and the
running year advances; in particular "nov" (month 11) followed by "jan"
(month 01) with base year `cy` puts the January entry in year `cy + 1`. -/
theorem c2_year_rollover (m pm cy : Nat) (h1 : m < pm) (h2 : pm ≠ 0) :
    determine_year none m cy pm = (cy + 1, cy + 1, m) ∧
    mes_map.lookup "nov" = some "11" ∧
    mes_map.lookup "jan" = some "01" ∧
    assign_years [11, 1] cy 0 = [(11, cy), (1, cy + 1)] := by
  refine ⟨?_, by rfl, by rfl, ?_⟩
  · simp only [determine_year, if_pos (And.intro h1 h2)]
  · simp only [assign_years, determine_year]
    norm_num

/-- C2 witness: the rollover theorem applied at month 1 after month 11 with
running year 2050. -/
theorem c2_year_rollover_witness :
    1 < 11 ∧ (11 : Nat) ≠ 0 ∧
    determine_year none 1 2050 11 = (2051, 2051, 1) :=
  ⟨by decide, by decide, (c2_year_rollover 1 11 2050 (by decide) (by decide)).1⟩

theorem cad_key_le_iff (a b : CadItem) :
    cad_key_le a b = true ↔ ¬(b.ano < a.ano ∨ (b.ano = a.ano ∧ b.mes < a.mes)) := by
  simp only [cad_key_le, cad_key_lt, Bool.not_eq_true', Bool.or_eq_false_iff,
    Bool.and_eq_false_iff, decide_eq_false_iff_not, not_lt, beq_eq_false_iff_ne,
    ne_eq, not_or, not_and]
  omega

theorem cad_key_le_total (x y : CadItem) (h : cad_key_le x y = false) :
    cad_key_le y x = true := by
  rw [Bool.eq_false_iff, ne_eq, cad_key_le_iff] at h
  rw [cad_key_le_iff]
  omega

theorem cad_key_le_trans (x y z : CadItem) (h1 : cad_key_le x y = true)
    (h2 : cad_key_le y z = true) : cad_key_le x z = true := by
  rw [cad_key_le_iff] at h1 h2 ⊢
  omega

theorem cad_insert_perm (x : CadItem) (l : List CadItem) :
    (cad_insert x l).Perm (x :: l) := by
  induction l with
  | nil => simp [cad_insert]
  | cons y ys ih =>
    by_cases h : cad_key_le x y = true
    · simp [cad_insert, h]
    · simp only [cad_insert, h, if_false, Bool.false_eq_true]
      exact (ih.cons y).trans (List.Perm.swap x y ys)

theorem cad_sort_perm (l : List CadItem) : (cad_sort l).Perm l := by
  induction l with
  | nil => simp [cad_sort]
  | cons x xs ih =>
    exact (cad_insert_perm x (cad_sort xs)).trans (ih.cons x)

theorem cad_insert_pairwise (x : CadItem) (l : List CadItem)
    (h : l.Pairwise (fun a b => cad_key_le a b = true)) :
    (cad_insert x l).Pairwise (fun a b => cad_key_le a b = true) := by
  induction l with
  | nil => simp [cad_insert]
  | cons y ys ih =>
    rcases List.pairwise_cons.1 h with ⟨hy, hys⟩
    by_cases hxy : cad_key_le x y = true
    · simp only [cad_insert, hxy, if_true]
      refine List.pairwise_cons.2 ⟨?_, h⟩
      intro b hb
      rcases List.mem_cons.1 hb with hb | hb
      · exact hb ▸ hxy
      · exact cad_key_le_trans x y b hxy (hy b hb)
    · simp only [cad_insert, hxy, if_false, Bool.false_eq_true]
      refine List.pairwise_cons.2 ⟨?_, ih hys⟩
      intro b hb
      rcases List.mem_cons.1 ((cad_insert_perm x ys).mem_iff.1 hb) with hb | hb
      · rw [hb]
        exact cad_key_le_total x y (Bool.eq_false_iff.2 hxy)
      · exact hy b hb

theorem cad_sort_pairwise (l : List CadItem) :
    (cad_sort l).Pairwise (fun a b => cad_key_le a b = true) := by
  induction l with
  | nil => simp [cad_sort]
  | cons x xs ih => exact cad_insert_pairwise x (cad_sort xs) ih

/-- C3: for a non-empty parsed item list, the serialization emits exactly
the `MM.YYYY:QTY ton` texts of the items sorted ascending by `(ano, mes)`,
one line per item; the sorted list is a permutation of the parsed items
(same length — duplicate `(mes, ano)` entries are kept, never merged) and
is pairwise ordered by the `(ano, mes)` key. -/
theorem c3_cadencia_sorted_serialization (items : List CadItem)
    (h : items ≠ []) :
    format_cadencia_tail items =
      some (String.intercalate "\n" ((cad_sort items).map CadItem.texto)) ∧
    (cad_sort items).Perm items ∧
    (cad_sort items).length = items.length ∧
    (cad_sort items).Pairwise (fun a b => cad_key_le a b = true) := by
  refine ⟨?_, cad_sort_perm items, (cad_sort_perm items).length_eq,
    cad_sort_pairwise items⟩
  simp [format_cadencia_tail, h]

/-- C3 witness: three concrete entries (two of them duplicates) serialize
to three sorted lines. -/
theorem c3_cadencia_sorted_serialization_witness :
    [mk_cad_item 11 2025 "50", mk_cad_item 1 2025 "30", mk_cad_item 1 2025 "30"]
      ≠ ([] : List CadItem) ∧
    format_cadencia_tail
        [mk_cad_item 11 2025 "50", mk_cad_item 1 2025 "30", mk_cad_item 1 2025 "30"] =
      some (String.intercalate "\n"
        ((cad_sort [mk_cad_item 11 2025 "50", mk_cad_item 1 2025 "30",
            mk_cad_item 1 2025 "30"]).map CadItem.texto)) :=
  ⟨by decide,
   (c3_cadencia_sorted_serialization _ (by decide)).1⟩

/-- C4: after `_validate_frete_condicional`, an absent freight price with a
freight-exempt incoterm leaves the missing-keys list unchanged (so
`Preço Frete` does not appear, given that no earlier validation adds it),
while an absent freight price with a present non-exempt incoterm puts
`Preço Frete` in the missing-keys list. -/
theorem c4_frete_conditional_requirement (iv : Option String)
    (pf : Option PyVal) (missing_keys missing_msgs : List String)
    (habs : frete_ausente (incoterms_upper iv) pf = true)
    (hnot : missing_keys.contains "Preço Frete" = false) :
    (frete_exempt.contains (incoterms_upper iv) = true →
      (validate_frete_condicional iv pf missing_keys missing_msgs).1 = missing_keys ∧
      (validate_frete_condicional iv pf missing_keys missing_msgs).1.contains
        "Preço Frete" = false) ∧
    (incoterms_upper iv ≠ "" →
      frete_exempt.contains (incoterms_upper iv) = false →
      (validate_frete_condicional iv pf missing_keys missing_msgs).1.contains
        "Preço Frete" = true) := by
  constructor
  · intro hex
    have hcond : ¬(incoterms_upper iv ≠ "" ∧
        frete_exempt.contains (incoterms_upper iv) = false ∧
        frete_ausente (incoterms_upper iv) pf = true) := by
      intro hc
      rw [hex] at hc
      exact absurd hc.2.1 (by simp)
    unfold validate_frete_condicional
    rw [if_neg hcond]
    exact ⟨rfl, hnot⟩
  · intro hne hnotex
    have hcond : incoterms_upper iv ≠ "" ∧
        frete_exempt.contains (incoterms_upper iv) = false ∧
        frete_ausente (incoterms_upper iv) pf = true := ⟨hne, hnotex, habs⟩
    unfold validate_frete_condicional
    rw [if_pos hcond, if_pos hnot]
    show (missing_keys ++ ["Preço Frete"]).elem "Preço Frete" = true
    rw [List.elem_iff]
    simp

/-- C4 witness: incoterm "cif" (non-exempt after uppercasing) with no
freight price makes `Preço Frete` appear in the missing-keys list. -/
theorem c4_frete_conditional_requirement_witness :
    frete_ausente (incoterms_upper (some "cif")) none = true ∧
    ([] : List String).contains "Preço Frete" = false ∧
    (validate_frete_condicional (some "cif") none [] []).1.contains
      "Preço Frete" = true :=
  ⟨by decide, by decide,
   (c4_frete_conditional_requirement (some "cif") none [] []
      (by decide) (by decide)).2 (by decide) (by decide)⟩

/-- C5: a supplied tax-id matching two or more rows of the reference sheet
with no supplied client code makes the search stage emit an ambiguity with
exactly one option (sheet name and client code) per matching row, in sheet
order, and adopts none of the rows into the draft. -/
theorem c5_duplicate_cnpj_ambiguity (df : List ClienteRow) (cnpj : String)
    (_hne : cnpj ≠ "")
    (hdup : 2 ≤ (cliente_matches df cnpj).length) :
    ∃ amb, cliente_etapa1 df cnpj none = ClienteEtapa1Result.ambiguity amb ∧
      amb.opcoes = (cliente_matches df cnpj).map (fun r =>
        ClienteOption.mk r.nome_cliente r.cliente (some (cnpj_normalize cnpj))) ∧
      amb.opcoes.length = (cliente_matches df cnpj).length ∧
      (∀ md, apply_cliente_etapa1 (cliente_etapa1 df cnpj none) md = md) := by
  match hm : cliente_matches df cnpj with
  | [] => rw [hm] at hdup; exact absurd hdup (by simp)
  | [r] => rw [hm] at hdup; exact absurd hdup (by simp)
  | r1 :: r2 :: rs =>
    have heq : cliente_etapa1 df cnpj none = ClienteEtapa1Result.ambiguity
        ⟨"Código do cliente", "Cliente", cnpj_normalize cnpj,
         cliente_dup_mensagem (cnpj_normalize cnpj)
           ((r1 :: r2 :: rs).map (fun r =>
             ClienteOption.mk r.nome_cliente r.cliente (some (cnpj_normalize cnpj)))),
         (r1 :: r2 :: rs).map (fun r =>
           ClienteOption.mk r.nome_cliente r.cliente (some (cnpj_normalize cnpj)))⟩ := by
      unfold cliente_etapa1
      rw [hm]
    refine ⟨_, heq, rfl, by simp, ?_⟩
    intro md
    rw [heq]
    rfl

/-- C5 witness: two sheet rows sharing the normalized tax-id "123" produce
the two-option ambiguity for the input "12.3". -/
theorem c5_duplicate_cnpj_ambiguity_witness :
    ("12.3" : String) ≠ "" ∧
    2 ≤ (cliente_matches
          [ClienteRow.mk "1001" "ACME MATRIZ" "123",
           ClienteRow.mk "1002" "ACME FILIAL" "123"] "12.3").length ∧
    (∃ amb, cliente_etapa1
        [ClienteRow.mk "1001" "ACME MATRIZ" "123",
         ClienteRow.mk "1002" "ACME FILIAL" "123"] "12.3" none =
          ClienteEtapa1Result.ambiguity amb ∧
      amb.opcoes = (cliente_matches
          [ClienteRow.mk "1001" "ACME MATRIZ" "123",
           ClienteRow.mk "1002" "ACME FILIAL" "123"] "12.3").map (fun r =>
        ClienteOption.mk r.nome_cliente r.cliente (some (cnpj_normalize "12.3"))) ∧
      amb.opcoes.length = (cliente_matches
          [ClienteRow.mk "1001" "ACME MATRIZ" "123",
           ClienteRow.mk "1002" "ACME FILIAL" "123"] "12.3").length ∧
      (∀ md, apply_cliente_etapa1 (cliente_etapa1
          [ClienteRow.mk "1001" "ACME MATRIZ" "123",
           ClienteRow.mk "1002" "ACME FILIAL" "123"] "12.3" none) md = md)) :=
  ⟨by decide, by decide,
   c5_duplicate_cnpj_ambiguity _ _ (by decide) (by decide)⟩

/-- C6: when the payment-method input is not a valid code and its
normalization misses the direct-term map but hits the keyword map, a
single-code keyword adopts that code, while a multi-code keyword emits an
ambiguity whose options carry every candidate code with its sheet
description, and the field keeps its raw value (the function returns before
any further resolution step). -/
theorem c6_forma_keyword_resolution (ud : List Char → List Char)
    (ctx : FormaCtx) (input : String) (codes : List String)
    (h0 : ctx.valid_forma_codes.contains input = false)
    (h1 : normalize_string_str ud true input ≠ "")
    (h2 : ctx.forma_map_norm_to_code.lookup
            (normalize_string_str ud true input) = none)
    (h3 : ctx.forma_keyword_map_norm_to_codes.lookup
            (normalize_string_str ud true input) = some codes) :
    (∀ c, codes = [c] →
      map_forma_pagamento_head ud ctx input = FormaResult.mapped c) ∧
    (2 ≤ codes.length →
      ∃ amb, map_forma_pagamento_head ud ctx input =
          FormaResult.keyword_ambiguity amb ∧
        amb.opcoes = codes.map (forma_option_of_code ctx.df_forma) ∧
        forma_value_after (map_forma_pagamento_head ud ctx input) input = input) := by
  constructor
  · intro c hc
    subst hc
    unfold map_forma_pagamento_head
    rw [h0]
    simp only [Bool.false_eq_true, if_false, if_neg h1, h2, h3]
  · intro hlen
    match hcodes : codes with
    | [] => exact absurd hlen (by simp)
    | [c] => exact absurd hlen (by simp)
    | c1 :: c2 :: cs =>
      subst hcodes
      have heq : map_forma_pagamento_head ud ctx input =
          FormaResult.keyword_ambiguity
            ⟨"Forma de Pagamento", input,
             forma_amb_mensagem input
               ((c1 :: c2 :: cs).map (forma_option_of_code ctx.df_forma)),
             (c1 :: c2 :: cs).map (forma_option_of_code ctx.df_forma)⟩ := by
        unfold map_forma_pagamento_head
        rw [h0]
        simp only [Bool.false_eq_true, if_false, if_neg h1, h2, h3]
      refine ⟨_, heq, rfl, ?_⟩
      rw [heq]
      rfl

/-- C6 witness: keyword "ted" maps to the two codes E and F, so the input
"TED" yields the two-option ambiguity with the sheet descriptions, and the
field keeps "TED". -/
theorem c6_forma_keyword_resolution_witness :
    (FormaCtx.mk ["E", "F"] [("pix", "A")] [("ted", ["E", "F"])]
        [("E", "TED CIP"), ("F", "TED STR")]).valid_forma_codes.contains
      "TED" = false ∧
    normalize_string_str ud_ascii_model true "TED" ≠ "" ∧
    (FormaCtx.mk ["E", "F"] [("pix", "A")] [("ted", ["E", "F"])]
        [("E", "TED CIP"), ("F", "TED STR")]).forma_map_norm_to_code.lookup
      (normalize_string_str ud_ascii_model true "TED") = none ∧
    (FormaCtx.mk ["E", "F"] [("pix", "A")] [("ted", ["E", "F"])]
        [("E", "TED CIP"), ("F", "TED STR")]).forma_keyword_map_norm_to_codes.lookup
      (normalize_string_str ud_ascii_model true "TED") = some ["E", "F"] ∧
    (∃ amb, map_forma_pagamento_head ud_ascii_model
        (FormaCtx.mk ["E", "F"] [("pix", "A")] [("ted", ["E", "F"])]
          [("E", "TED CIP"), ("F", "TED STR")]) "TED" =
          FormaResult.keyword_ambiguity amb ∧
      amb.opcoes = ["E", "F"].map (forma_option_of_code
        [("E", "TED CIP"), ("F", "TED STR")]) ∧
      forma_value_after (map_forma_pagamento_head ud_ascii_model
        (FormaCtx.mk ["E", "F"] [("pix", "A")] [("ted", ["E", "F"])]
          [("E", "TED CIP"), ("F", "TED STR")]) "TED") "TED" = "TED") :=
  ⟨by decide, by decide, by decide, by decide,
   (c6_forma_keyword_resolution ud_ascii_model _ "TED" ["E", "F"]
      (by decide) (by decide) (by decide) (by decide)).2 (by decide)⟩

theorem pydict_lookup_cons_self {k k0 : String} {v0 : Option PyVal}
    {rest : PyDict} (h : (k == k0) = true) :
    ((k0, v0) :: rest).lookup k = some v0 := by
  rw [List.lookup_cons, h]

theorem pydict_lookup_cons_ne {k k0 : String} {v0 : Option PyVal}
    {rest : PyDict} (h : (k == k0) = false) :
    ((k0, v0) :: rest).lookup k = rest.lookup k := by
  rw [List.lookup_cons, h]

theorem pydict_lookup_eq_none_of_any_eq_false {d : PyDict} {k : String}
    (h : d.any (fun p => p.1 == k) = false) : d.lookup k = none := by
  induction d with
  | nil => rfl
  | cons p rest ih =>
    cases p with
    | mk k0 v0 =>
      simp only [List.any_cons, Bool.or_eq_false_iff, beq_eq_false_iff_ne] at h
      have hb : (k == k0) = false := by
        rw [beq_eq_false_iff_ne]
        exact fun he => h.1 he.symm
      rw [pydict_lookup_cons_ne hb]
      exact ih (by simpa [beq_eq_false_iff_ne] using h.2)

theorem pydict_any_eq_true_of_lookup {d : PyDict} {k : String} {w : Option PyVal}
    (h : d.lookup k = some w) : d.any (fun p => p.1 == k) = true := by
  by_cases ha : d.any (fun p => p.1 == k) = true
  · exact ha
  · rw [pydict_lookup_eq_none_of_any_eq_false (Bool.eq_false_iff.2 ha)] at h
    exact absurd h (by simp)

theorem pydict_lookup_map_set (d : PyDict) (k : String) (v : Option PyVal)
    (h : d.any (fun p => p.1 == k) = true) :
    (d.map (fun p => if p.1 = k then (k, v) else p)).lookup k = some v := by
  induction d with
  | nil => simp at h
  | cons p rest ih =>
    cases p with
    | mk k0 v0 =>
      by_cases hk : k0 = k
      · have hh : (if ((k0, v0) : String × Option PyVal).1 = k then (k, v) else (k0, v0)) = (k, v) := by
          simp [hk]
        rw [List.map_cons, hh, pydict_lookup_cons_self (beq_self_eq_true k)]
      · have hh : (if ((k0, v0) : String × Option PyVal).1 = k then (k, v) else (k0, v0)) = (k0, v0) := by
          simp [hk]
        have hb : (k == k0) = false := by
          rw [beq_eq_false_iff_ne]
          exact fun he => hk he.symm
        rw [List.map_cons, hh, pydict_lookup_cons_ne hb]
        apply ih
        simp only [List.any_cons, Bool.or_eq_true, beq_iff_eq] at h
        rcases h with h | h
        · exact absurd h hk
        · exact h

theorem pydict_lookup_map_set_ne (d : PyDict) (k k2 : String) (v : Option PyVal)
    (h : k2 ≠ k) :
    (d.map (fun p => if p.1 = k then (k, v) else p)).lookup k2 = d.lookup k2 := by
  induction d with
  | nil => rfl
  | cons p rest ih =>
    cases p with
    | mk k0 v0 =>
      by_cases hk : k0 = k
      · have hh : (if ((k0, v0) : String × Option PyVal).1 = k then (k, v) else (k0, v0)) = (k, v) := by
          simp [hk]
        have h1 : (k2 == k) = false := by
          rw [beq_eq_false_iff_ne]
          exact h
        have h2 : (k2 == k0) = false := by
          rw [beq_eq_false_iff_ne, hk]
          exact h
        rw [List.map_cons, hh, pydict_lookup_cons_ne h1, pydict_lookup_cons_ne h2]
        exact ih
      · have hh : (if ((k0, v0) : String × Option PyVal).1 = k then (k, v) else (k0, v0)) = (k0, v0) := by
          simp [hk]
        rw [List.map_cons, hh]
        by_cases hp : (k2 == k0) = true
        · rw [pydict_lookup_cons_self hp, pydict_lookup_cons_self hp]
        · rw [pydict_lookup_cons_ne (Bool.eq_false_iff.2 hp),
            pydict_lookup_cons_ne (Bool.eq_false_iff.2 hp)]
          exact ih

theorem pydict_lookup_append_ne (d : PyDict) (k k2 : String) (v : Option PyVal)
    (h : k2 ≠ k) : (d ++ [(k, v)]).lookup k2 = d.lookup k2 := by
  induction d with
  | nil =>
    have h1 : (k2 == k) = false := by
      rw [beq_eq_false_iff_ne]
      exact h
    rw [List.nil_append, pydict_lookup_cons_ne h1]
  | cons p rest ih =>
    cases p with
    | mk k0 v0 =>
      by_cases hp : (k2 == k0) = true
      · rw [List.cons_append, pydict_lookup_cons_self hp, pydict_lookup_cons_self hp]
      · rw [List.cons_append, pydict_lookup_cons_ne (Bool.eq_false_iff.2 hp),
          pydict_lookup_cons_ne (Bool.eq_false_iff.2 hp)]
        exact ih

theorem pydict_lookup_append_self (d : PyDict) (k : String) (v : Option PyVal)
    (h : d.lookup k = none) : (d ++ [(k, v)]).lookup k = some v := by
  induction d with
  | nil => rw [List.nil_append, pydict_lookup_cons_self (beq_self_eq_true k)]
  | cons p rest ih =>
    cases p with
    | mk k0 v0 =>
      by_cases hp : (k == k0) = true
      · rw [pydict_lookup_cons_self hp] at h
        exact absurd h (by simp)
      · rw [pydict_lookup_cons_ne (Bool.eq_false_iff.2 hp)] at h
        rw [List.cons_append, pydict_lookup_cons_ne (Bool.eq_false_iff.2 hp)]
        exact ih h

theorem py_dict_set_lookup_self (d : PyDict) (k : String) (v : Option PyVal) :
    (py_dict_set d k v).lookup k = some v := by
  unfold py_dict_set
  by_cases h : d.any (fun p => p.1 == k) = true
  · rw [if_pos h]
    exact pydict_lookup_map_set d k v h
  · rw [if_neg h]
    exact pydict_lookup_append_self d k v
      (pydict_lookup_eq_none_of_any_eq_false (Bool.eq_false_iff.2 h))

theorem py_dict_set_lookup_ne (d : PyDict) (k k2 : String) (v : Option PyVal)
    (h : k2 ≠ k) : (py_dict_set d k v).lookup k2 = d.lookup k2 := by
  unfold py_dict_set
  by_cases ha : d.any (fun p => p.1 == k) = true
  · rw [if_pos ha]
    exact pydict_lookup_map_set_ne d k k2 v h
  · rw [if_neg ha]
    exact pydict_lookup_append_ne d k k2 v h

theorem update_request_step_lookup_ne (acc : PyDict) (kv : String × Option PyVal)
    (k : String) (h : kv.1 ≠ k) :
    (update_request_step acc kv).lookup k = acc.lookup k := by
  unfold update_request_step
  split
  · exact py_dict_set_lookup_ne acc kv.1 k kv.2 (fun he => h he.symm)
  · split
    · exact py_dict_set_lookup_ne acc kv.1 k kv.2 (fun he => h he.symm)
    · rfl

theorem update_fold_lookup_frame (new_data : PyDict) (acc : PyDict) (k : String)
    (h : ∀ kv ∈ new_data, kv.1 ≠ k) :
    (new_data.foldl update_request_step acc).lookup k = acc.lookup k := by
  induction new_data generalizing acc with
  | nil => rfl
  | cons kv rest ih =>
    simp only [List.foldl_cons]
    rw [ih _ (fun p hp => h p (List.mem_cons_of_mem kv hp)),
      update_request_step_lookup_ne acc kv k (h kv (List.mem_cons_self kv rest))]

theorem pydict_keys_nodup_not_mem {k0 : String} {v0 : Option PyVal}
    {rest : PyDict} (hnodup : (((k0, v0) :: rest).map Prod.fst).Nodup) :
    ∀ kv ∈ rest, kv.1 ≠ k0 := by
  intro kv hkv he
  simp only [List.map_cons, List.nodup_cons] at hnodup
  exact hnodup.1 (he ▸ List.mem_map_of_mem Prod.fst hkv)

theorem pydict_keys_nodup_tail {k0 : String} {v0 : Option PyVal}
    {rest : PyDict} (hnodup : (((k0, v0) :: rest).map Prod.fst).Nodup) :
    (rest.map Prod.fst).Nodup := by
  simp only [List.map_cons, List.nodup_cons] at hnodup
  exact hnodup.2

theorem update_lookup_overwrite (new_data : PyDict) (acc : PyDict) (k : String)
    (w : PyVal)
    (hnodup : (new_data.map Prod.fst).Nodup)
    (hk : new_data.lookup k = some (some w)) :
    (new_data.foldl update_request_step acc).lookup k = some (some w) := by
  induction new_data generalizing acc with
  | nil => exact absurd hk (by simp [List.lookup])
  | cons kv rest ih =>
    cases kv with
    | mk k0 v0 =>
      by_cases hkk : (k == k0) = true
      · rw [beq_iff_eq] at hkk
        subst hkk
        have hv0 : v0 = some w := by
          rw [pydict_lookup_cons_self (beq_self_eq_true k)] at hk
          exact Option.some.inj hk
        subst hv0
        have hstep : update_request_step acc (k, some w) = py_dict_set acc k (some w) := by
          unfold update_request_step
          rw [if_pos]
          exact Or.inl (by simp)
        rw [List.foldl_cons, hstep,
          update_fold_lookup_frame rest _ k (pydict_keys_nodup_not_mem hnodup),
          py_dict_set_lookup_self]
      · have hne : k0 ≠ k := by
          intro he
          rw [he] at hkk
          simp at hkk
        have hk2 : rest.lookup k = some (some w) := by
          rwa [pydict_lookup_cons_ne (Bool.eq_false_iff.2 hkk)] at hk
        rw [List.foldl_cons]
        exact ih _ (pydict_keys_nodup_tail hnodup) hk2

theorem update_lookup_keep (new_data : PyDict) (acc : PyDict) (k : String)
    (w : PyVal)
    (hnodup : (new_data.map Prod.fst).Nodup)
    (hcur : acc.lookup k = some (some w))
    (hk : new_data.lookup k = some none) :
    (new_data.foldl update_request_step acc).lookup k = some (some w) := by
  induction new_data generalizing acc with
  | nil => exact hcur
  | cons kv rest ih =>
    cases kv with
    | mk k0 v0 =>
      by_cases hkk : (k == k0) = true
      · rw [beq_iff_eq] at hkk
        subst hkk
        have hv0 : v0 = none := by
          rw [pydict_lookup_cons_self (beq_self_eq_true k)] at hk
          exact Option.some.inj hk
        subst hv0
        have hstep : update_request_step acc (k, none) = acc := by
          unfold update_request_step
          rw [if_neg, if_neg]
          · intro hc
            exact absurd hc.1 (by simp)
          · intro hc
            rcases hc with hc | hc | hc
            · exact hc rfl
            · rw [pydict_any_eq_true_of_lookup hcur] at hc
              exact absurd hc (by simp)
            · rw [py_dict_get, hcur] at hc
              exact absurd hc (by simp [Option.join])
        rw [List.foldl_cons, hstep,
          update_fold_lookup_frame rest acc k (pydict_keys_nodup_not_mem hnodup)]
        exact hcur
      · have hne : k0 ≠ k := by
          intro he
          rw [he] at hkk
          simp at hkk
        have hk2 : rest.lookup k = some none := by
          rwa [pydict_lookup_cons_ne (Bool.eq_false_iff.2 hkk)] at hk
        rw [List.foldl_cons]
        refine ih _ (pydict_keys_nodup_tail hnodup) ?_ hk2
        rw [update_request_step_lookup_ne acc (k0, v0) k hne]
        exact hcur

/-- C7: merging an extracted field set into the draft record, per field: a
`None` extraction leaves an existing non-null value unchanged, any
non-null extraction overwrites the stored value, and an explicit empty
string (being non-null) overwrites — thereby clearing — the stored
value. -/
theorem c7_merge_field_semantics (current new_data : PyDict) (k : String)
    (hnodup : (new_data.map Prod.fst).Nodup) :
    (∀ w, current.lookup k = some (some w) → new_data.lookup k = some none →
      (update_request_data current new_data).lookup k = some (some w)) ∧
    (∀ v, new_data.lookup k = some (some v) →
      (update_request_data current new_data).lookup k = some (some v)) ∧
    (new_data.lookup k = some (some (PyVal.str "")) →
      (update_request_data current new_data).lookup k =
        some (some (PyVal.str ""))) :=
  ⟨fun w hc hn => update_lookup_keep new_data current k w hnodup hc hn,
   fun v hv => update_lookup_overwrite new_data current k v hnodup hv,
   fun hv => update_lookup_overwrite new_data current k _ hnodup hv⟩

/-- C7 witness: over a three-field draft, a `None` extraction keeps
Cidade, a non-null one overwrites Valor, and an empty string clears
Planta. -/
theorem c7_merge_field_semantics_witness :
    (([("Cidade", none), ("Valor", some (PyVal.str "200")),
       ("Planta", some (PyVal.str ""))] : PyDict).map Prod.fst).Nodup ∧
    (update_request_data
        [("Cidade", some (PyVal.str "Cuiabá")), ("Valor", some (PyVal.str "100")),
         ("Planta", some (PyVal.str "PDL"))]
        [("Cidade", none), ("Valor", some (PyVal.str "200")),
         ("Planta", some (PyVal.str ""))]).lookup "Cidade" =
      some (some (PyVal.str "Cuiabá")) ∧
    (update_request_data
        [("Cidade", some (PyVal.str "Cuiabá")), ("Valor", some (PyVal.str "100")),
         ("Planta", some (PyVal.str "PDL"))]
        [("Cidade", none), ("Valor", some (PyVal.str "200")),
         ("Planta", some (PyVal.str ""))]).lookup "Valor" =
      some (some (PyVal.str "200")) ∧
    (update_request_data
        [("Cidade", some (PyVal.str "Cuiabá")), ("Valor", some (PyVal.str "100")),
         ("Planta", some (PyVal.str "PDL"))]
        [("Cidade", none), ("Valor", some (PyVal.str "200")),
         ("Planta", some (PyVal.str ""))]).lookup "Planta" =
      some (some (PyVal.str "")) :=
  ⟨by decide,
   (c7_merge_field_semantics _ _ "Cidade" (by decide)).1 _ (by decide) (by decide),
   (c7_merge_field_semantics _ _ "Valor" (by decide)).2.1 _ (by decide),
   (c7_merge_field_semantics _ _ "Planta" (by decide)).2.2 (by decide)⟩

theorem pydict_lookup_isSome_of_any {d : PyDict} {k : String}
    (h : d.any (fun p => p.1 == k) = true) : ∃ w, d.lookup k = some w := by
  induction d with
  | nil => simp at h
  | cons p rest ih =>
    cases p with
    | mk k0 v0 =>
      by_cases hp : (k == k0) = true
      · exact ⟨v0, pydict_lookup_cons_self hp⟩
      · simp only [List.any_cons, Bool.or_eq_true, beq_iff_eq] at h
        rcases h with h | h
        · exact absurd (beq_iff_eq.2 h.symm) hp
        · rcases ih h with ⟨w, hw⟩
          refine ⟨w, ?_⟩
          rw [pydict_lookup_cons_ne (Bool.eq_false_iff.2 hp)]
          exact hw

theorem py_setdefault_lookup_self (d : PyDict) (k : String) (v : Option PyVal) :
    (py_setdefault d k v).lookup k = some ((d.lookup k).getD v) := by
  unfold py_setdefault
  by_cases h : d.any (fun p => p.1 == k) = true
  · rw [if_pos h]
    rcases pydict_lookup_isSome_of_any h with ⟨w, hw⟩
    rw [hw]
    rfl
  · rw [if_neg h]
    have hl : d.lookup k = none :=
      pydict_lookup_eq_none_of_any_eq_false (Bool.eq_false_iff.2 h)
    rw [pydict_lookup_append_self d k v hl, hl]
    rfl

theorem py_setdefault_lookup_ne (d : PyDict) (k k2 : String) (v : Option PyVal)
    (h : k2 ≠ k) : (py_setdefault d k v).lookup k2 = d.lookup k2 := by
  unfold py_setdefault
  by_cases ha : d.any (fun p => p.1 == k) = true
  · rw [if_pos ha]
  · rw [if_neg ha]
    exact pydict_lookup_append_ne d k k2 v h

theorem ensure_fold_frame (ks : List String) (acc : PyDict) (k : String)
    (h : k ∉ ks) :
    (ks.foldl (fun a key => py_setdefault a key none) acc).lookup k =
      acc.lookup k := by
  induction ks generalizing acc with
  | nil => rfl
  | cons k0 rest ih =>
    simp only [List.foldl_cons]
    rw [ih _ (fun hk => h (List.mem_cons_of_mem k0 hk)),
      py_setdefault_lookup_ne acc k0 k none (fun he => h (he ▸ List.mem_cons_self k0 rest))]

theorem ensure_fold_lookup (ks : List String) (acc : PyDict) (k : String)
    (h : k ∈ ks) :
    (ks.foldl (fun a key => py_setdefault a key none) acc).lookup k =
      some ((acc.lookup k).join) := by
  induction ks generalizing acc with
  | nil => exact absurd h (by simp)
  | cons k0 rest ih =>
    simp only [List.foldl_cons]
    by_cases hk : k = k0
    · subst hk
      by_cases hmem : k ∈ rest
      · rw [ih _ hmem, py_setdefault_lookup_self]
        cases acc.lookup k <;> rfl
      · rw [ensure_fold_frame rest _ k hmem, py_setdefault_lookup_self]
        cases acc.lookup k <;> rfl
    · have hmem : k ∈ rest := by
        rcases List.mem_cons.1 h with hc | hc
        · exact absurd hc hk
        · exact hc
      rw [ih _ hmem, py_setdefault_lookup_ne acc k0 k none hk]

/-- C9: the key-finalizing tail of `map` makes every key of the fixed field
set present in the returned record, with the value already accumulated for
it when there is one and `None` otherwise. -/
theorem c9_mapped_record_default_keys (d : PyDict) (k : String)
    (h : k ∈ default_keys) :
    (map_finalize_keys d).lookup k = some ((d.lookup k).join) := by
  unfold map_finalize_keys ensure_default_keys
  rw [ensure_fold_lookup _ _ _ h]
  by_cases he : k = "Email do vendedor"
  · subst he
    rw [py_setdefault_lookup_self]
    cases d.lookup "Email do vendedor" <;> rfl
  · rw [py_setdefault_lookup_ne _ _ _ _ he]

/-- C9 witness: a record holding only Planta gets Planta kept and the
unpopulated key Cadência present with value `None`. -/
theorem c9_mapped_record_default_keys_witness :
    "Cadência" ∈ default_keys ∧ "Planta" ∈ default_keys ∧
    (map_finalize_keys [("Planta", some (PyVal.str "PDL"))]).lookup "Cadência" =
      some none ∧
    (map_finalize_keys [("Planta", some (PyVal.str "PDL"))]).lookup "Planta" =
      some (some (PyVal.str "PDL")) :=
  ⟨by decide, by decide,
   c9_mapped_record_default_keys [("Planta", some (PyVal.str "PDL"))] "Cadência"
     (by decide),
   c9_mapped_record_default_keys [("Planta", some (PyVal.str "PDL"))] "Planta"
     (by decide)⟩

theorem fz_key_ge_iff (a b : FuzzyCand) :
    fz_key_ge a b = true ↔
      ¬(a.score < b.score ∨ (a.score = b.score ∧ a.tie_break_score < b.tie_break_score)) := by
  simp only [fz_key_ge, fz_key_gt, Bool.not_eq_true', Bool.or_eq_false_iff,
    Bool.and_eq_false_iff, decide_eq_false_iff_not, not_lt, beq_eq_false_iff_ne,
    ne_eq, not_or, not_and]
  omega

theorem fz_key_ge_total (x y : FuzzyCand) (h : fz_key_ge x y = false) :
    fz_key_ge y x = true := by
  rw [Bool.eq_false_iff, ne_eq, fz_key_ge_iff] at h
  rw [fz_key_ge_iff]
  omega

theorem fz_key_ge_trans (x y z : FuzzyCand) (h1 : fz_key_ge x y = true)
    (h2 : fz_key_ge y z = true) : fz_key_ge x z = true := by
  rw [fz_key_ge_iff] at h1 h2 ⊢
  omega

theorem fz_insert_perm (x : FuzzyCand) (l : List FuzzyCand) :
    (fz_insert x l).Perm (x :: l) := by
  induction l with
  | nil => simp [fz_insert]
  | cons y ys ih =>
    by_cases h : fz_key_ge x y = true
    · simp [fz_insert, h]
    · simp only [fz_insert, h, if_false, Bool.false_eq_true]
      exact (ih.cons y).trans (List.Perm.swap x y ys)

theorem fz_sort_perm (l : List FuzzyCand) : (fz_sort l).Perm l := by
  induction l with
  | nil => simp [fz_sort]
  | cons x xs ih =>
    exact (fz_insert_perm x (fz_sort xs)).trans (ih.cons x)

theorem fz_insert_pairwise (x : FuzzyCand) (l : List FuzzyCand)
    (h : l.Pairwise (fun a b => fz_key_ge a b = true)) :
    (fz_insert x l).Pairwise (fun a b => fz_key_ge a b = true) := by
  induction l with
  | nil => simp [fz_insert]
  | cons y ys ih =>
    rcases List.pairwise_cons.1 h with ⟨hy, hys⟩
    by_cases hxy : fz_key_ge x y = true
    · simp only [fz_insert, hxy, if_true]
      refine List.pairwise_cons.2 ⟨?_, h⟩
      intro b hb
      rcases List.mem_cons.1 hb with hb | hb
      · rw [hb]
        exact hxy
      · exact fz_key_ge_trans x y b hxy (hy b hb)
    · simp only [fz_insert, hxy, if_false, Bool.false_eq_true]
      refine List.pairwise_cons.2 ⟨?_, ih hys⟩
      intro b hb
      rcases List.mem_cons.1 ((fz_insert_perm x ys).mem_iff.1 hb) with hb | hb
      · rw [hb]
        exact fz_key_ge_total x y (Bool.eq_false_iff.2 hxy)
      · exact hy b hb

theorem fz_sort_pairwise (l : List FuzzyCand) :
    (fz_sort l).Pairwise (fun a b => fz_key_ge a b = true) := by
  induction l with
  | nil => simp [fz_sort]
  | cons x xs ih => exact fz_insert_pairwise x (fz_sort xs) ih

theorem fuzzy_qualified_pairwise (cands : List FuzzyCand) :
    (fuzzy_qualified cands).Pairwise (fun a b => fz_key_ge a b = true) :=
  (fz_sort_pairwise cands).filter _

/-- C10: when two or more fuzzy candidates qualify, the emitted ambiguity
lists exactly the first `MAX_AMBIGUITY_OPTIONS` (5) qualified candidates —
the highest-scoring ones, in descending `(score, tie-break)` order — so at
most 5 options, and the count of omitted candidates appears only in the
question text (as its final part). -/
theorem c10_fuzzy_ambiguity_truncation (nome : String)
    (cands : List FuzzyCand)
    (h2 : 2 ≤ (fuzzy_qualified cands).length) :
    ∃ amb, fuzzy_match_outcome nome cands = FuzzyOutcome.ambiguity amb ∧
      amb.opcoes =
        ((fuzzy_qualified cands).take MAX_AMBIGUITY_OPTIONS).map mk_fuzzy_option ∧
      amb.opcoes.length ≤ 5 ∧
      amb.opcoes.Pairwise (fun a b =>
        b.similaridade < a.similaridade ∨
          (b.similaridade = a.similaridade ∧
           b.similaridade_inicio ≤ a.similaridade_inicio)) ∧
      amb.mensagem = String.intercalate "\n"
        (fuzzy_message_parts nome amb.opcoes (fuzzy_qualified cands).length) ∧
      (MAX_AMBIGUITY_OPTIONS < (fuzzy_qualified cands).length →
        ("... e mais " ++
           toString ((fuzzy_qualified cands).length - MAX_AMBIGUITY_OPTIONS) ++
           " outros.") ∈
          fuzzy_message_parts nome amb.opcoes (fuzzy_qualified cands).length) := by
  have hpw : ((fuzzy_qualified cands).take MAX_AMBIGUITY_OPTIONS).Pairwise
      (fun a b => fz_key_ge a b = true) :=
    (fuzzy_qualified_pairwise cands).sublist (List.take_sublist _ _)
  match hm : fuzzy_qualified cands with
  | [] => rw [hm] at h2; exact absurd h2 (by simp)
  | [m] => rw [hm] at h2; exact absurd h2 (by simp)
  | m1 :: m2 :: ms =>
    have heq : fuzzy_match_outcome nome cands = FuzzyOutcome.ambiguity
        ⟨"Código do cliente", "Cliente", nome,
         String.intercalate "\n"
           (fuzzy_message_parts nome
             (((m1 :: m2 :: ms).take MAX_AMBIGUITY_OPTIONS).map mk_fuzzy_option)
             (m1 :: m2 :: ms).length),
         ((m1 :: m2 :: ms).take MAX_AMBIGUITY_OPTIONS).map mk_fuzzy_option⟩ := by
      unfold fuzzy_match_outcome
      rw [hm]
    rw [hm] at hpw
    refine ⟨_, heq, rfl, ?_, ?_, rfl, ?_⟩
    · calc (((m1 :: m2 :: ms).take MAX_AMBIGUITY_OPTIONS).map mk_fuzzy_option).length
          = ((m1 :: m2 :: ms).take MAX_AMBIGUITY_OPTIONS).length := List.length_map _ _
        _ ≤ MAX_AMBIGUITY_OPTIONS := List.length_take_le _ _
    · rw [List.pairwise_map]
      refine hpw.imp ?_
      intro a b hab
      rw [fz_key_ge_iff] at hab
      simp only [mk_fuzzy_option]
      omega
    · intro hlt
      unfold fuzzy_message_parts
      rw [if_pos hlt]
      simp

/-- C10 witness: six qualified candidates produce a five-option ambiguity
whose question mentions the one omitted candidate. -/
theorem c10_fuzzy_ambiguity_truncation_witness :
    2 ≤ (fuzzy_qualified
        [FuzzyCand.mk 90 95 "A" (some "1") none,
         FuzzyCand.mk 88 90 "B" (some "2") none,
         FuzzyCand.mk 95 99 "C" (some "3") none,
         FuzzyCand.mk 85 88 "D" (some "4") none,
         FuzzyCand.mk 85 88 "E" (some "5") none,
         FuzzyCand.mk 84 100 "F" (some "6") none]).length ∧
    (∃ amb, fuzzy_match_outcome "acme"
        [FuzzyCand.mk 90 95 "A" (some "1") none,
         FuzzyCand.mk 88 90 "B" (some "2") none,
         FuzzyCand.mk 95 99 "C" (some "3") none,
         FuzzyCand.mk 85 88 "D" (some "4") none,
         FuzzyCand.mk 85 88 "E" (some "5") none,
         FuzzyCand.mk 84 100 "F" (some "6") none] = FuzzyOutcome.ambiguity amb ∧
      amb.opcoes = ((fuzzy_qualified
        [FuzzyCand.mk 90 95 "A" (some "1") none,
         FuzzyCand.mk 88 90 "B" (some "2") none,
         FuzzyCand.mk 95 99 "C" (some "3") none,
         FuzzyCand.mk 85 88 "D" (some "4") none,
         FuzzyCand.mk 85 88 "E" (some "5") none,
         FuzzyCand.mk 84 100 "F" (some "6") none]).take
           MAX_AMBIGUITY_OPTIONS).map mk_fuzzy_option ∧
      amb.opcoes.length ≤ 5) := by
  refine ⟨by decide, ?_⟩
  rcases c10_fuzzy_ambiguity_truncation "acme"
      [FuzzyCand.mk 90 95 "A" (some "1") none,
       FuzzyCand.mk 88 90 "B" (some "2") none,
       FuzzyCand.mk 95 99 "C" (some "3") none,
       FuzzyCand.mk 85 88 "D" (some "4") none,
       FuzzyCand.mk 85 88 "E" (some "5") none,
       FuzzyCand.mk 84 100 "F" (some "6") none] (by decide) with
    ⟨amb, h1, h2, h3, _⟩
  exact ⟨amb, h1, h2, h3⟩

theorem stableChar_iff (c : Char) :
    stableChar c = true ↔ (c.toNat < 128 ∧ (c.toNat < 65 ∨ 90 < c.toNat)) := by
  simp [stableChar]

theorem stableChar_pyLowerChar (c : Char) (h : c.toNat < 128) :
    stableChar (pyLowerChar c) = true := by
  unfold pyLowerChar
  split
  · rename_i hc
    rw [stableChar_iff, charToNat_ofNat _ (by omega)]
    omega
  · rename_i hc
    rw [stableChar_iff]
    omega

theorem pyLowerChar_eq_self_of_stable (c : Char) (h : stableChar c = true) :
    pyLowerChar c = c := by
  rw [stableChar_iff] at h
  unfold pyLowerChar
  rw [if_neg]
  omega

theorem map_pyLowerChar_eq_self (l : List Char) (h : l.all stableChar = true) :
    l.map pyLowerChar = l := by
  rw [List.all_eq_true] at h
  induction l with
  | nil => rfl
  | cons c rest ih =>
    rw [List.map_cons, pyLowerChar_eq_self_of_stable c (h c (by simp)),
      ih (fun x hx => h x (by simp [hx]))]

theorem all_stable_of_all_ascii_map_lower (l : List Char)
    (h : l.all isAsciiChar = true) :
    (l.map pyLowerChar).all stableChar = true := by
  rw [List.all_map, List.all_eq_true] at *
  intro c hc
  exact stableChar_pyLowerChar c (by simpa [isAsciiChar] using h c hc)

theorem all_ascii_of_all_stable (l : List Char) (h : l.all stableChar = true) :
    l.all isAsciiChar = true := by
  rw [List.all_eq_true] at *
  intro c hc
  have := (stableChar_iff c).1 (h c hc)
  simp [isAsciiChar]
  omega

theorem isAsciiSpace_of_isLowerAlpha (c : Char) (h : isLowerAlpha c = true) :
    isAsciiSpace c = false := by
  simp only [isLowerAlpha, Bool.and_eq_true, decide_eq_true_eq] at h
  simp only [isAsciiSpace, Bool.or_eq_false_iff, Bool.and_eq_false_iff,
    decide_eq_false_iff_not, not_le]
  omega

theorem isLowerAlpha_space : isLowerAlpha ' ' = false := by decide

theorem isLowerAlpha_of_isAsciiSpace (c : Char) (h : isAsciiSpace c = true) :
    isLowerAlpha c = false := by
  simp only [isAsciiSpace, Bool.or_eq_true, Bool.and_eq_true, decide_eq_true_eq] at h
  simp only [isLowerAlpha, Bool.and_eq_false_iff, decide_eq_false_iff_not, not_le]
  omega

theorem all_of_sublist {p : Char → Bool} {l1 l2 : List Char}
    (hs : l1.Sublist l2) (h : l2.all p = true) : l1.all p = true := by
  rw [List.all_eq_true] at *
  exact fun x hx => h x (hs.subset hx)

theorem rstripList_sublist (l : List Char) : (rstripList l).Sublist l := by
  induction l with
  | nil => simp [rstripList]
  | cons c rest ih =>
    unfold rstripList
    split
    · split
      · exact List.nil_sublist _
      · exact List.Sublist.cons₂ c (List.nil_sublist rest)
    · exact ih.cons₂ c

theorem lstripList_sublist (l : List Char) : (lstripList l).Sublist l :=
  List.dropWhile_sublist _

theorem stripList_sublist (l : List Char) : (stripList l).Sublist l :=
  (rstripList_sublist _).trans (lstripList_sublist l)

theorem collapseGo_all {p : Char → Bool} (hsp : p ' ' = true) :
    ∀ (l : List Char) (b : Bool), l.all p = true → (collapseGo b l).all p = true := by
  intro l
  induction l with
  | nil => intro b _; rfl
  | cons c rest ih =>
    intro b h
    rw [List.all_cons, Bool.and_eq_true] at h
    unfold collapseGo
    split
    · split
      · exact ih true h.2
      · rw [List.all_cons, hsp]
        simpa using ih true h.2
    · rw [List.all_cons, h.1]
      simpa using ih false h.2

theorem dotSubGo_all {p : Char → Bool} (hsp : p ' ' = true) :
    ∀ (l : List Char) (q : Option Char), l.all p = true →
      (dotSubGo q l).all p = true := by
  intro l
  induction l with
  | nil => intro q _; rfl
  | cons c rest ih =>
    intro q h
    rw [List.all_cons, Bool.and_eq_true] at h
    unfold dotSubGo
    rw [List.all_cons, Bool.and_eq_true]
    refine ⟨?_, ih (some c) h.2⟩
    split
    · exact hsp
    · exact h.1

theorem map_hyphenToSpace_all {p : Char → Bool} (hsp : p ' ' = true)
    (l : List Char) (h : l.all p = true) :
    (l.map hyphenToSpace).all p = true := by
  rw [List.all_map, List.all_eq_true] at *
  intro c hc
  unfold hyphenToSpace
  simp only [Function.comp]
  split
  · exact hsp
  · exact h c hc

theorem ud_ascii_model_all (l : List Char) :
    (ud_ascii_model l).all isAsciiChar = true := by
  rw [List.all_eq_true]
  intro c hc
  unfold ud_ascii_model at hc
  simp only [List.mem_filter, decide_eq_true_eq] at hc
  simp [isAsciiChar]
  omega

theorem ud_ascii_model_id (l : List Char) (h : l.all isAsciiChar = true) :
    ud_ascii_model l = l := by
  rw [List.all_eq_true] at h
  unfold ud_ascii_model
  rw [List.filter_eq_self]
  intro c hc
  simpa [isAsciiChar] using h c hc

theorem lastNotSpace_cons (a : Char) (l : List Char) :
    lastNotSpace (a :: l) =
      (if l.isEmpty then !isAsciiSpace a else lastNotSpace l) := by
  cases l <;> rfl

theorem dotHeadBad_not_lower {a : Char} (h : isLowerAlpha a = false)
    (l : List Char) : dotHeadBad a l = false := by
  cases l <;> simp [dotHeadBad, h]

theorem collapseGo_nil (b : Bool) : collapseGo b [] = [] := rfl

theorem collapseGo_cons (b : Bool) (c : Char) (rest : List Char) :
    collapseGo b (c :: rest) =
      if isAsciiSpace c then
        (if b then collapseGo true rest else ' ' :: collapseGo true rest)
      else c :: collapseGo false rest := rfl

theorem collapseGo_cons_space_true {c : Char} (h : isAsciiSpace c = true)
    (rest : List Char) : collapseGo true (c :: rest) = collapseGo true rest := by
  rw [collapseGo_cons, if_pos h]
  rfl

theorem collapseGo_cons_space_false {c : Char} (h : isAsciiSpace c = true)
    (rest : List Char) :
    collapseGo false (c :: rest) = ' ' :: collapseGo true rest := by
  rw [collapseGo_cons, if_pos h]
  rfl

theorem collapseGo_cons_nonspace {c : Char} (h : isAsciiSpace c = false)
    (b : Bool) (rest : List Char) :
    collapseGo b (c :: rest) = c :: collapseGo false rest := by
  rw [collapseGo_cons, if_neg (by simp [h])]

theorem dotHeadBad_cons (a b : Char) (rest : List Char) :
    dotHeadBad a (b :: rest) =
      (decide (b = '.') && isLowerAlpha a && lowerOpt rest.head?) := rfl

theorem noLetterDotLetter_cons (a : Char) (rest : List Char) :
    noLetterDotLetter (a :: rest) =
      (!(dotHeadBad a rest) && noLetterDotLetter rest) := rfl

theorem noTwoSpaces_cons (a : Char) (rest : List Char) :
    noTwoSpaces (a :: rest) =
      (!(isAsciiSpace a && spaceHead rest) && noTwoSpaces rest) := rfl

theorem collapseGo_spacesArePlain : ∀ (l : List Char) (b : Bool),
    spacesArePlain (collapseGo b l) = true := by
  intro l
  induction l with
  | nil => intro b; rfl
  | cons c rest ih =>
    intro b
    by_cases hc : isAsciiSpace c = true
    · cases b with
      | true =>
        rw [collapseGo_cons_space_true hc rest]
        exact ih true
      | false =>
        rw [collapseGo_cons_space_false hc rest]
        unfold spacesArePlain at *
        rw [List.all_cons, Bool.and_eq_true]
        exact ⟨by decide, ih true⟩
    · rw [collapseGo_cons_nonspace (Bool.eq_false_iff.2 hc) b rest]
      unfold spacesArePlain at *
      rw [List.all_cons, Bool.and_eq_true]
      refine ⟨?_, ih false⟩
      rw [Bool.eq_false_iff.2 hc]
      rfl

theorem collapseGo_noTwo_spec : ∀ (l : List Char),
    noTwoSpaces (collapseGo false l) = true ∧
    noTwoSpaces (collapseGo true l) = true ∧
    spaceHead (collapseGo true l) = false := by
  intro l
  induction l with
  | nil => exact ⟨rfl, rfl, rfl⟩
  | cons c rest ih =>
    by_cases hc : isAsciiSpace c = true
    · have hf : collapseGo false (c :: rest) = ' ' :: collapseGo true rest :=
        collapseGo_cons_space_false hc rest
      have ht : collapseGo true (c :: rest) = collapseGo true rest :=
        collapseGo_cons_space_true hc rest
      refine ⟨?_, ht ▸ ih.2.1, ht ▸ ih.2.2⟩
      rw [hf, noTwoSpaces_cons, ih.2.2, ih.2.1]
      rfl
    · have hb : ∀ b, collapseGo b (c :: rest) = c :: collapseGo false rest :=
        fun b => collapseGo_cons_nonspace (Bool.eq_false_iff.2 hc) b rest
      have htwo : noTwoSpaces (c :: collapseGo false rest) = true := by
        rw [noTwoSpaces_cons, Bool.eq_false_iff.2 hc, ih.1]
        rfl
      refine ⟨hb false ▸ htwo, hb true ▸ htwo, ?_⟩
      rw [hb true]
      show isAsciiSpace c = false
      exact Bool.eq_false_iff.2 hc

theorem collapseGo_headNotSpace (l : List Char) (b : Bool)
    (h : headNotSpace l = true) : headNotSpace (collapseGo b l) = true := by
  cases l with
  | nil => rfl
  | cons c rest =>
    have hc : isAsciiSpace c = false := by
      simpa [headNotSpace] using h
    rw [collapseGo_cons_nonspace hc b rest]
    simpa [headNotSpace] using h

theorem collapseGo_last_spec : ∀ (l : List Char), lastNotSpace l = true →
    ∀ b, lastNotSpace (collapseGo b l) = true ∧
      (l ≠ [] → collapseGo b l ≠ []) := by
  intro l
  induction l with
  | nil => intro _ b; exact ⟨rfl, fun hne => absurd rfl hne⟩
  | cons c rest ih =>
    intro h b
    cases rest with
    | nil =>
      have hc : isAsciiSpace c = false := by
        simpa [lastNotSpace] using h
      have hout : collapseGo b [c] = [c] := by
        rw [collapseGo_cons_nonspace hc b []]
        rfl
      rw [hout]
      exact ⟨by simpa [lastNotSpace] using hc, fun _ => by simp⟩
    | cons d r =>
      have hrest : lastNotSpace (d :: r) = true := by
        rwa [lastNotSpace_cons, if_neg (by simp)] at h
      by_cases hc : isAsciiSpace c = true
      · have ihm := ih hrest true
        cases b with
        | true =>
          rw [collapseGo_cons_space_true hc (d :: r)]
          exact ⟨ihm.1, fun _ => ihm.2 (by simp)⟩
        | false =>
          rw [collapseGo_cons_space_false hc (d :: r)]
          constructor
          · rw [lastNotSpace_cons,
              if_neg (by simpa [List.isEmpty_iff] using ihm.2 (by simp))]
            exact ihm.1
          · intro _
            simp
      · have ihm := ih hrest false
        rw [collapseGo_cons_nonspace (Bool.eq_false_iff.2 hc) b (d :: r)]
        constructor
        · rw [lastNotSpace_cons,
            if_neg (by simpa [List.isEmpty_iff] using ihm.2 (by simp))]
          exact ihm.1
        · intro _
          simp

theorem collapseGo_eq_self_spec : ∀ (l : List Char),
    spacesArePlain l = true → noTwoSpaces l = true →
    collapseGo false l = l ∧
      (spaceHead l = false → collapseGo true l = l) := by
  intro l
  induction l with
  | nil => intro _ _; exact ⟨rfl, fun _ => rfl⟩
  | cons c rest ih =>
    intro hplain hnt
    have hplain2 : spacesArePlain rest = true := by
      unfold spacesArePlain at hplain ⊢
      rw [List.all_cons, Bool.and_eq_true] at hplain
      exact hplain.2
    have hheadp : (!isAsciiSpace c || decide (c = ' ')) = true := by
      unfold spacesArePlain at hplain
      rw [List.all_cons, Bool.and_eq_true] at hplain
      exact hplain.1
    have hnt2 : noTwoSpaces rest = true := by
      rw [noTwoSpaces_cons, Bool.and_eq_true] at hnt
      exact hnt.2
    have hpair : isAsciiSpace c = false ∨ spaceHead rest = false := by
      rw [noTwoSpaces_cons, Bool.and_eq_true] at hnt
      simpa using hnt.1
    by_cases hc : isAsciiSpace c = true
    · have hcs : c = ' ' := by
        rw [hc] at hheadp
        simpa using hheadp
      have hsh : spaceHead rest = false := by
        rcases hpair with hp | hp
        · rw [hc] at hp
          exact absurd hp (by simp)
        · exact hp
      constructor
      · rw [collapseGo_cons_space_false hc rest, (ih hplain2 hnt2).2 hsh, hcs]
      · intro hshc
        have : spaceHead (c :: rest) = isAsciiSpace c := rfl
        rw [this, hc] at hshc
        exact absurd hshc (by simp)
    · have hout : ∀ b, collapseGo b (c :: rest) = c :: collapseGo false rest :=
        fun b => collapseGo_cons_nonspace (Bool.eq_false_iff.2 hc) b rest
      refine ⟨?_, fun _ => ?_⟩ <;>
        rw [hout, (ih hplain2 hnt2).1]

theorem collapseGo_noLDL : ∀ (l : List Char),
    noLetterDotLetter l = true → ∀ b,
    noLetterDotLetter (collapseGo b l) = true := by
  intro l
  induction l with
  | nil => intro _ b; rfl
  | cons c rest ih =>
    intro hnl b
    have hnl2 : noLetterDotLetter rest = true := by
      rw [noLetterDotLetter_cons, Bool.and_eq_true] at hnl
      exact hnl.2
    by_cases hc : isAsciiSpace c = true
    · cases b with
      | true =>
        rw [collapseGo_cons_space_true hc rest]
        exact ih hnl2 true
      | false =>
        rw [collapseGo_cons_space_false hc rest, noLetterDotLetter_cons,
          dotHeadBad_not_lower isLowerAlpha_space, ih hnl2 true]
        rfl
    · rw [collapseGo_cons_nonspace (Bool.eq_false_iff.2 hc) b rest,
        noLetterDotLetter_cons, ih hnl2 false, Bool.and_true]
      by_cases hlc : isLowerAlpha c = true
      · cases rest with
        | nil =>
          rw [collapseGo_nil]
          rfl
        | cons d r =>
          by_cases hd : isAsciiSpace d = true
          · rw [collapseGo_cons_space_false hd r, dotHeadBad_cons]
            simp
          · rw [collapseGo_cons_nonspace (Bool.eq_false_iff.2 hd) false r,
              dotHeadBad_cons]
            by_cases hdd : d = '.'
            · subst hdd
              cases r with
              | nil =>
                rw [collapseGo_nil]
                simp [lowerOpt]
              | cons e r2 =>
                by_cases he : isAsciiSpace e = true
                · rw [collapseGo_cons_space_false he r2]
                  simp [lowerOpt, isLowerAlpha_space]
                · rw [collapseGo_cons_nonspace (Bool.eq_false_iff.2 he) false r2]
                  have hle : isLowerAlpha e = false := by
                    have hbad : (!(dotHeadBad c ('.' :: e :: r2))) = true := by
                      rw [noLetterDotLetter_cons, Bool.and_eq_true] at hnl
                      exact hnl.1
                    rw [dotHeadBad_cons] at hbad
                    simpa [lowerOpt, hlc] using hbad
                  simp [lowerOpt, hle]
            · simp [hdd]
      · rw [dotHeadBad_not_lower (Bool.eq_false_iff.2 hlc)]
        rfl


theorem rstripList_cons (c : Char) (rest : List Char) :
    rstripList (c :: rest) =
      if (rstripList rest).isEmpty then (if isAsciiSpace c then [] else [c])
      else c :: rstripList rest := rfl

theorem headNotSpace_lstrip (l : List Char) :
    headNotSpace (lstripList l) = true := by
  induction l with
  | nil => rfl
  | cons c rest ih =>
    unfold lstripList at *
    by_cases hc : isAsciiSpace c = true
    · rw [List.dropWhile_cons, if_pos hc]
      exact ih
    · rw [List.dropWhile_cons, if_neg hc]
      simpa [headNotSpace] using Bool.eq_false_iff.2 hc

theorem lstrip_eq_self (l : List Char) (h : headNotSpace l = true) :
    lstripList l = l := by
  cases l with
  | nil => rfl
  | cons c rest =>
    have hc : isAsciiSpace c = false := by
      simpa [headNotSpace] using h
    unfold lstripList
    rw [List.dropWhile_cons, if_neg (by simp [hc])]

theorem rstrip_eq_take : ∀ l : List Char, ∃ n, rstripList l = l.take n := by
  intro l
  induction l with
  | nil => exact ⟨0, rfl⟩
  | cons c rest ih =>
    rcases ih with ⟨n, hn⟩
    rw [rstripList_cons]
    by_cases he : (rstripList rest).isEmpty = true
    · rw [if_pos he]
      by_cases hc : isAsciiSpace c = true
      · exact ⟨0, by rw [if_pos hc]; rfl⟩
      · exact ⟨1, by rw [if_neg hc]; rfl⟩
    · rw [if_neg he, hn]
      exact ⟨n + 1, rfl⟩

theorem headNotSpace_take (l : List Char) (n : Nat)
    (h : headNotSpace l = true) : headNotSpace (l.take n) = true := by
  cases l with
  | nil => simp [headNotSpace]
  | cons c rest =>
    cases n with
    | zero => rfl
    | succ m => exact h

theorem spaceHead_take (l : List Char) (n : Nat)
    (h : spaceHead (l.take n) = true) : spaceHead l = true := by
  cases l with
  | nil => simp [List.take_nil] at h; exact absurd h (by simp [spaceHead])
  | cons c rest =>
    cases n with
    | zero => exact absurd h (by simp [spaceHead])
    | succ m => exact h

theorem lowerOpt_head_take (l : List Char) (n : Nat)
    (h : lowerOpt (l.take n).head? = true) : lowerOpt l.head? = true := by
  cases l with
  | nil => simp at h; exact absurd h (by simp [lowerOpt])
  | cons c rest =>
    cases n with
    | zero => exact absurd h (by simp [lowerOpt])
    | succ m => exact h

theorem noTwoSpaces_take (l : List Char) (h : noTwoSpaces l = true) :
    ∀ n, noTwoSpaces (l.take n) = true := by
  induction l with
  | nil => intro n; simp [noTwoSpaces]
  | cons c rest ih =>
    intro n
    cases n with
    | zero => rfl
    | succ m =>
      rw [List.take_succ_cons, noTwoSpaces_cons]
      rw [noTwoSpaces_cons, Bool.and_eq_true] at h
      rw [ih h.2 m, Bool.and_true]
      by_cases hsp : spaceHead (rest.take m) = true
      · have hc : isAsciiSpace c = false := by
          rw [spaceHead_take rest m hsp] at h
          simpa using h.1
        rw [hc]
        simp
      · rw [Bool.eq_false_iff.2 hsp]
        simp

theorem noLDL_take (l : List Char) (h : noLetterDotLetter l = true) :
    ∀ n, noLetterDotLetter (l.take n) = true := by
  induction l with
  | nil => intro n; simp [noLetterDotLetter]
  | cons c rest ih =>
    intro n
    cases n with
    | zero => rfl
    | succ m =>
      rw [List.take_succ_cons, noLetterDotLetter_cons]
      rw [noLetterDotLetter_cons, Bool.and_eq_true] at h
      rw [ih h.2 m, Bool.and_true]
      by_cases hbad : dotHeadBad c (rest.take m) = true
      · exfalso
        cases rest with
        | nil => simp [List.take_nil, dotHeadBad] at hbad
        | cons d r =>
          cases m with
          | zero => simp [dotHeadBad] at hbad
          | succ m2 =>
            rw [List.take_succ_cons, dotHeadBad_cons, Bool.and_eq_true,
              Bool.and_eq_true] at hbad
            have : dotHeadBad c (d :: r) = true := by
              rw [dotHeadBad_cons, Bool.and_eq_true, Bool.and_eq_true]
              exact ⟨⟨hbad.1.1, hbad.1.2⟩, lowerOpt_head_take r m2 hbad.2⟩
            rw [this] at h
            exact absurd h.1 (by simp)
      · rw [Bool.eq_false_iff.2 hbad]
        rfl

theorem noTwoSpaces_tail {c : Char} {rest : List Char}
    (h : noTwoSpaces (c :: rest) = true) : noTwoSpaces rest = true := by
  rw [noTwoSpaces_cons, Bool.and_eq_true] at h
  exact h.2

theorem noLDL_tail {c : Char} {rest : List Char}
    (h : noLetterDotLetter (c :: rest) = true) :
    noLetterDotLetter rest = true := by
  rw [noLetterDotLetter_cons, Bool.and_eq_true] at h
  exact h.2

theorem noTwoSpaces_dropWhile (p : Char → Bool) (l : List Char)
    (h : noTwoSpaces l = true) : noTwoSpaces (l.dropWhile p) = true := by
  induction l with
  | nil => rfl
  | cons c rest ih =>
    rw [List.dropWhile_cons]
    split
    · exact ih (noTwoSpaces_tail h)
    · exact h

theorem noLDL_dropWhile (p : Char → Bool) (l : List Char)
    (h : noLetterDotLetter l = true) :
    noLetterDotLetter (l.dropWhile p) = true := by
  induction l with
  | nil => rfl
  | cons c rest ih =>
    rw [List.dropWhile_cons]
    split
    · exact ih (noLDL_tail h)
    · exact h

theorem rstrip_eq_self (l : List Char) (h : lastNotSpace l = true) :
    rstripList l = l := by
  induction l with
  | nil => rfl
  | cons c rest ih =>
    cases rest with
    | nil =>
      have hc : isAsciiSpace c = false := by
        simpa [lastNotSpace] using h
      rw [rstripList_cons]
      rw [if_pos (by rfl), if_neg (by simp [hc])]
    | cons d r =>
      have hrest : lastNotSpace (d :: r) = true := by
        rwa [lastNotSpace_cons, if_neg (by simp)] at h
      have hr : rstripList (d :: r) = d :: r := ih hrest
      rw [rstripList_cons, hr, if_neg (by simp)]

theorem lastNotSpace_rstrip (l : List Char) :
    lastNotSpace (rstripList l) = true := by
  induction l with
  | nil => rfl
  | cons c rest ih =>
    rw [rstripList_cons]
    by_cases he : (rstripList rest).isEmpty = true
    · rw [if_pos he]
      by_cases hc : isAsciiSpace c = true
      · rw [if_pos hc]
        rfl
      · rw [if_neg hc]
        simpa [lastNotSpace] using Bool.eq_false_iff.2 hc
    · rw [if_neg he, lastNotSpace_cons, if_neg he]
      exact ih

theorem headNotSpace_rstrip (l : List Char) (h : headNotSpace l = true) :
    headNotSpace (rstripList l) = true := by
  rcases rstrip_eq_take l with ⟨n, hn⟩
  rw [hn]
  exact headNotSpace_take l n h

theorem headNotSpace_strip (l : List Char) :
    headNotSpace (stripList l) = true :=
  headNotSpace_rstrip _ (headNotSpace_lstrip l)

theorem lastNotSpace_strip (l : List Char) :
    lastNotSpace (stripList l) = true :=
  lastNotSpace_rstrip _

theorem strip_eq_self (l : List Char) (h1 : headNotSpace l = true)
    (h2 : lastNotSpace l = true) : stripList l = l := by
  unfold stripList
  rw [lstrip_eq_self l h1, rstrip_eq_self l h2]

theorem noTwoSpaces_strip (l : List Char) (h : noTwoSpaces l = true) :
    noTwoSpaces (stripList l) = true := by
  unfold stripList
  rcases rstrip_eq_take (lstripList l) with ⟨n, hn⟩
  rw [hn]
  exact noTwoSpaces_take _ (noTwoSpaces_dropWhile _ l h) n

theorem noLDL_strip (l : List Char) (h : noLetterDotLetter l = true) :
    noLetterDotLetter (stripList l) = true := by
  unfold stripList
  rcases rstrip_eq_take (lstripList l) with ⟨n, hn⟩
  rw [hn]
  exact noLDL_take _ (noLDL_dropWhile _ l h) n

theorem dotSubGo_cons (p : Option Char) (c : Char) (rest : List Char) :
    dotSubGo p (c :: rest) =
      (if (decide (c = '.') && lowerOpt p && lowerOpt rest.head?) = true
       then ' ' else c) :: dotSubGo (some c) rest := rfl

theorem dotSubGo_length (p : Option Char) (l : List Char) :
    (dotSubGo p l).length = l.length := by
  induction l generalizing p with
  | nil => rfl
  | cons c rest ih =>
    rw [dotSubGo_cons, List.length_cons, List.length_cons, ih (some c)]

theorem lower_not_dot {d : Char} (hd : isLowerAlpha d = true) :
    decide (d = '.') = false := by
  rw [decide_eq_false_iff_not]
  intro he
  rw [he] at hd
  exact absurd hd (by decide)

theorem dotSubGo_noTwo (l : List Char) (h : noTwoSpaces l = true) :
    ∀ p, noTwoSpaces (dotSubGo p l) = true := by
  induction l with
  | nil => intro p; rfl
  | cons c rest ih =>
    intro p
    rw [dotSubGo_cons, noTwoSpaces_cons, ih (noTwoSpaces_tail h) (some c),
      Bool.and_true]
    by_cases hcond : (decide (c = '.') && lowerOpt p && lowerOpt rest.head?) = true
    · rw [if_pos hcond]
      rw [Bool.and_eq_true, Bool.and_eq_true] at hcond
      cases rest with
      | nil => exact absurd hcond.2 (by simp [lowerOpt])
      | cons d r =>
        have hld : isLowerAlpha d = true := by
          simpa [lowerOpt] using hcond.2
        rw [dotSubGo_cons]
        have hd2 : (decide (d = '.') && lowerOpt (some c) && lowerOpt r.head?) = false := by
          rw [lower_not_dot hld]
          rfl
        rw [if_neg (by simp [hd2])]
        have hds : isAsciiSpace d = false := isAsciiSpace_of_isLowerAlpha d hld
        simp [spaceHead, hds]
    · rw [if_neg hcond]
      by_cases hc : isAsciiSpace c = true
      · cases rest with
        | nil => simp [dotSubGo, spaceHead]
        | cons d r =>
          have hd : isAsciiSpace d = false := by
            rw [noTwoSpaces_cons, Bool.and_eq_true] at h
            have := h.1
            rw [hc] at this
            simpa [spaceHead] using this
          rw [dotSubGo_cons]
          have hlc : lowerOpt (some c) = false := by
            simpa [lowerOpt] using isLowerAlpha_of_isAsciiSpace c hc
          rw [hlc]
          rw [if_neg (by simp)]
          simp [spaceHead, hd]
      · simp [Bool.eq_false_iff.2 hc]

theorem dotSubGo_headNS (l : List Char) (h : headNotSpace l = true) :
    headNotSpace (dotSubGo none l) = true := by
  cases l with
  | nil => rfl
  | cons c rest =>
    rw [dotSubGo_cons]
    rw [if_neg (by simp [lowerOpt])]
    exact h

theorem dotSubGo_lastNS (l : List Char) (h : lastNotSpace l = true) :
    ∀ p, lastNotSpace (dotSubGo p l) = true := by
  induction l with
  | nil => intro p; rfl
  | cons c rest ih =>
    intro p
    cases rest with
    | nil =>
      rw [dotSubGo_cons]
      rw [if_neg (by simp [lowerOpt])]
      exact h
    | cons d r =>
      have hrest : lastNotSpace (d :: r) = true := by
        rwa [lastNotSpace_cons, if_neg (by simp)] at h
      rw [dotSubGo_cons, lastNotSpace_cons, if_neg]
      · exact ih hrest (some c)
      · have : (dotSubGo (some c) (d :: r)).length = (d :: r).length :=
          dotSubGo_length _ _
        simp only [List.isEmpty_iff]
        intro he
        rw [he] at this
        simp at this

theorem dotSubGo_noLDL : ∀ (l : List Char) (p : Option Char),
    noLetterDotLetter (dotSubGo p l) = true := by
  intro l
  induction l with
  | nil => intro p; rfl
  | cons c rest ih =>
    intro p
    rw [dotSubGo_cons, noLetterDotLetter_cons, ih (some c), Bool.and_true]
    cases rest with
    | nil => simp [dotSubGo, dotHeadBad]
    | cons d r =>
      rw [dotSubGo_cons, dotHeadBad_cons]
      by_cases hcondd : (decide (d = '.') && lowerOpt (some c) && lowerOpt r.head?) = true
      · rw [if_pos hcondd]
        rw [show decide (' ' = '.') = false by decide]
        rfl
      · rw [if_neg hcondd]
        by_cases hdd : decide (d = '.') = true
        · by_cases hlc2 : isLowerAlpha
            (if (decide (c = '.') && lowerOpt p && lowerOpt (d :: r).head?) = true
             then ' ' else c) = true
          · have hcc : (if (decide (c = '.') && lowerOpt p && lowerOpt (d :: r).head?) = true
                then ' ' else c) = c := by
              by_cases hcondc : (decide (c = '.') && lowerOpt p && lowerOpt (d :: r).head?) = true
              · rw [if_pos hcondc] at hlc2
                exact absurd hlc2 (by rw [isLowerAlpha_space]; simp)
              · rw [if_neg hcondc]
            rw [hcc] at hlc2
            have hlr : lowerOpt r.head? = false := by
              by_contra hlr
              rw [Bool.not_eq_false] at hlr
              have : (decide (d = '.') && lowerOpt (some c) && lowerOpt r.head?) = true := by
                rw [hdd, hlr]
                simpa [lowerOpt] using hlc2
              exact absurd this hcondd
            cases r with
            | nil => simp [dotSubGo, lowerOpt]
            | cons e r2 =>
              rw [dotSubGo_cons]
              by_cases hconde : (decide (e = '.') && lowerOpt (some d) && lowerOpt r2.head?) = true
              · rw [if_pos hconde]
                simp [lowerOpt, isLowerAlpha_space]
              · rw [if_neg hconde]
                have he2 : isLowerAlpha e = false := by
                  simpa [lowerOpt] using hlr
                simp [lowerOpt, he2]
          · rw [Bool.eq_false_iff.2 hlc2]
            simp
        · rw [Bool.eq_false_iff.2 hdd]
          simp

theorem dotSubGo_eq_self_some : ∀ (l : List Char) (a : Char),
    noLetterDotLetter (a :: l) = true → dotSubGo (some a) l = l := by
  intro l
  induction l with
  | nil => intro a _; rfl
  | cons c rest ih =>
    intro a h
    rw [noLetterDotLetter_cons, Bool.and_eq_true] at h
    have hcond : (decide (c = '.') && lowerOpt (some a) && lowerOpt rest.head?) = false := by
      have := h.1
      rwa [dotHeadBad_cons, Bool.not_eq_true'] at this
    rw [dotSubGo_cons, if_neg (by simp [hcond]), ih c h.2]

theorem dotSub_eq_self (l : List Char) (h : noLetterDotLetter l = true) :
    dotSub l = l := by
  cases l with
  | nil => rfl
  | cons c rest =>
    unfold dotSub
    rw [dotSubGo_cons, if_neg (by simp [lowerOpt]), dotSubGo_eq_self_some rest c h]

theorem map_hyphen_eq_self (l : List Char) (h : noHyphen l = true) :
    l.map hyphenToSpace = l := by
  unfold noHyphen at h
  rw [List.all_eq_true] at h
  induction l with
  | nil => rfl
  | cons c rest ih =>
    rw [List.map_cons, ih (fun x hx => h x (by simp [hx]))]
    have hc : ¬(c = '-') := by
      simpa using h c (by simp)
    unfold hyphenToSpace
    rw [if_neg hc]

theorem noHyphen_map_hyphen (l : List Char) :
    noHyphen (l.map hyphenToSpace) = true := by
  unfold noHyphen
  rw [List.all_map, List.all_eq_true]
  intro c _
  simp only [Function.comp]
  unfold hyphenToSpace
  split
  · decide
  · rename_i hc
    simpa using hc

theorem noLDL_map_hyphen (l : List Char) (h : noLetterDotLetter l = true) :
    noLetterDotLetter (l.map hyphenToSpace) = true := by
  induction l with
  | nil => rfl
  | cons c rest ih =>
    rw [List.map_cons, noLetterDotLetter_cons, ih (noLDL_tail h), Bool.and_true]
    cases rest with
    | nil => rfl
    | cons d r =>
      rw [List.map_cons, dotHeadBad_cons]
      by_cases hd : decide (hyphenToSpace d = '.') = true
      · have hdd : d = '.' := by
          rw [decide_eq_true_eq] at hd
          unfold hyphenToSpace at hd
          by_cases hdh : d = '-'
          · rw [if_pos hdh] at hd
            exact absurd hd (by decide)
          · rwa [if_neg hdh] at hd
        by_cases hlc : isLowerAlpha (hyphenToSpace c) = true
        · have hcc : hyphenToSpace c = c := by
            unfold hyphenToSpace
            by_cases hch : c = '-'
            · unfold hyphenToSpace at hlc
              rw [if_pos hch] at hlc
              exact absurd hlc (by rw [isLowerAlpha_space]; simp)
            · rw [if_neg hch]
          rw [hcc] at hlc
          have hle : lowerOpt (List.map hyphenToSpace r).head? = false := by
            cases r with
            | nil => rfl
            | cons e r2 =>
              rw [List.map_cons]
              show lowerOpt (some (hyphenToSpace e)) = false
              by_cases hle2 : isLowerAlpha (hyphenToSpace e) = true
              · have hee : hyphenToSpace e = e := by
                  unfold hyphenToSpace
                  by_cases heh : e = '-'
                  · unfold hyphenToSpace at hle2
                    rw [if_pos heh] at hle2
                    exact absurd hle2 (by rw [isLowerAlpha_space]; simp)
                  · rw [if_neg heh]
                rw [hee] at hle2 ⊢
                have hbad : dotHeadBad c (d :: e :: r2) = true := by
                  rw [dotHeadBad_cons, hdd]
                  show (decide ('.' = '.') && isLowerAlpha c && lowerOpt (some e)) = true
                  simp [lowerOpt, hlc, hle2]
                rw [noLetterDotLetter_cons, Bool.and_eq_true, hbad] at h
                exact absurd h.1 (by simp)
              · simpa [lowerOpt] using Bool.eq_false_iff.2 hle2
          rw [hle]
          simp
        · rw [Bool.eq_false_iff.2 hlc]
          simp
      · rw [Bool.eq_false_iff.2 hd]
        simp

theorem normalizeList_normal_form (ud : List Char → List Char)
    (hud_out : ∀ l, (ud l).all isAsciiChar = true)
    (remove_hyphens : Bool) (l : List Char) :
    (normalizeList ud remove_hyphens l).all stableChar = true ∧
    headNotSpace (normalizeList ud remove_hyphens l) = true ∧
    lastNotSpace (normalizeList ud remove_hyphens l) = true ∧
    spacesArePlain (normalizeList ud remove_hyphens l) = true ∧
    noTwoSpaces (normalizeList ud remove_hyphens l) = true ∧
    noLetterDotLetter (normalizeList ud remove_hyphens l) = true ∧
    (remove_hyphens = true → noHyphen (normalizeList ud remove_hyphens l) = true) ∧
    normalizeList ud remove_hyphens l ≠ "avista".data := by
  have h0all : ((ud l).map pyLowerChar).all stableChar = true :=
    all_stable_of_all_ascii_map_lower _ (hud_out l)
  have h1all : (stripList ((ud l).map pyLowerChar)).all stableChar = true :=
    all_of_sublist (stripList_sublist _) h0all
  have h1head : headNotSpace (stripList ((ud l).map pyLowerChar)) = true :=
    headNotSpace_strip _
  have h1last : lastNotSpace (stripList ((ud l).map pyLowerChar)) = true :=
    lastNotSpace_strip _
  have h2all : (collapseWs (stripList ((ud l).map pyLowerChar))).all stableChar = true :=
    collapseGo_all (by decide) _ false h1all
  have h2plain : spacesArePlain (collapseWs (stripList ((ud l).map pyLowerChar))) = true :=
    collapseGo_spacesArePlain _ false
  have h2two : noTwoSpaces (collapseWs (stripList ((ud l).map pyLowerChar))) = true :=
    (collapseGo_noTwo_spec _).1
  have h2head : headNotSpace (collapseWs (stripList ((ud l).map pyLowerChar))) = true :=
    collapseGo_headNotSpace _ false h1head
  have h2last : lastNotSpace (collapseWs (stripList ((ud l).map pyLowerChar))) = true :=
    (collapseGo_last_spec _ h1last false).1
  have h3all : (dotSub (collapseWs (stripList ((ud l).map pyLowerChar)))).all stableChar = true :=
    dotSubGo_all (by decide) _ none h2all
  have h3plain : spacesArePlain (dotSub (collapseWs (stripList ((ud l).map pyLowerChar)))) = true :=
    dotSubGo_all (by decide) _ none h2plain
  have h3two : noTwoSpaces (dotSub (collapseWs (stripList ((ud l).map pyLowerChar)))) = true :=
    dotSubGo_noTwo _ h2two none
  have h3head : headNotSpace (dotSub (collapseWs (stripList ((ud l).map pyLowerChar)))) = true :=
    dotSubGo_headNS _ h2head
  have h3last : lastNotSpace (dotSub (collapseWs (stripList ((ud l).map pyLowerChar)))) = true :=
    dotSubGo_lastNS _ h2last none
  have h3ldl : noLetterDotLetter (dotSub (collapseWs (stripList ((ud l).map pyLowerChar)))) = true :=
    dotSubGo_noLDL _ none
  cases remove_hyphens with
  | false =>
    have hdef : normalizeList ud false l =
        (if dotSub (collapseWs (stripList ((ud l).map pyLowerChar))) = "avista".data
         then "a vista".data
         else dotSub (collapseWs (stripList ((ud l).map pyLowerChar)))) := rfl
    rw [hdef]
    by_cases hav : dotSub (collapseWs (stripList ((ud l).map pyLowerChar))) = "avista".data
    · rw [if_pos hav]
      exact ⟨by decide, by decide, by decide, by decide, by decide, by decide,
        by simp, by decide⟩
    · rw [if_neg hav]
      exact ⟨h3all, h3head, h3last, h3plain, h3two, h3ldl, by simp, hav⟩
  | true =>
    have h4all : ((dotSub (collapseWs (stripList ((ud l).map pyLowerChar)))).map hyphenToSpace).all stableChar = true :=
      map_hyphenToSpace_all (by decide) _ h3all
    have h4plain : spacesArePlain ((dotSub (collapseWs (stripList ((ud l).map pyLowerChar)))).map hyphenToSpace) = true :=
      map_hyphenToSpace_all (by decide) _ h3plain
    have h4ldl : noLetterDotLetter ((dotSub (collapseWs (stripList ((ud l).map pyLowerChar)))).map hyphenToSpace) = true :=
      noLDL_map_hyphen _ h3ldl
    have h4hyph : noHyphen ((dotSub (collapseWs (stripList ((ud l).map pyLowerChar)))).map hyphenToSpace) = true :=
      noHyphen_map_hyphen _
    have h5all : (collapseWs ((dotSub (collapseWs (stripList ((ud l).map pyLowerChar)))).map hyphenToSpace)).all stableChar = true :=
      collapseGo_all (by decide) _ false h4all
    have h5plain : spacesArePlain (collapseWs ((dotSub (collapseWs (stripList ((ud l).map pyLowerChar)))).map hyphenToSpace)) = true :=
      collapseGo_spacesArePlain _ false
    have h5two : noTwoSpaces (collapseWs ((dotSub (collapseWs (stripList ((ud l).map pyLowerChar)))).map hyphenToSpace)) = true :=
      (collapseGo_noTwo_spec _).1
    have h5ldl : noLetterDotLetter (collapseWs ((dotSub (collapseWs (stripList ((ud l).map pyLowerChar)))).map hyphenToSpace)) = true :=
      collapseGo_noLDL _ h4ldl false
    have h5hyph : noHyphen (collapseWs ((dotSub (collapseWs (stripList ((ud l).map pyLowerChar)))).map hyphenToSpace)) = true :=
      collapseGo_all (by decide) _ false h4hyph
    have h6all : (stripList (collapseWs ((dotSub (collapseWs (stripList ((ud l).map pyLowerChar)))).map hyphenToSpace))).all stableChar = true :=
      all_of_sublist (stripList_sublist _) h5all
    have h6plain : spacesArePlain (stripList (collapseWs ((dotSub (collapseWs (stripList ((ud l).map pyLowerChar)))).map hyphenToSpace))) = true :=
      all_of_sublist (stripList_sublist _) h5plain
    have h6two : noTwoSpaces (stripList (collapseWs ((dotSub (collapseWs (stripList ((ud l).map pyLowerChar)))).map hyphenToSpace))) = true :=
      noTwoSpaces_strip _ h5two
    have h6ldl : noLetterDotLetter (stripList (collapseWs ((dotSub (collapseWs (stripList ((ud l).map pyLowerChar)))).map hyphenToSpace))) = true :=
      noLDL_strip _ h5ldl
    have h6hyph : noHyphen (stripList (collapseWs ((dotSub (collapseWs (stripList ((ud l).map pyLowerChar)))).map hyphenToSpace))) = true :=
      all_of_sublist (stripList_sublist _) h5hyph
    have h6head : headNotSpace (stripList (collapseWs ((dotSub (collapseWs (stripList ((ud l).map pyLowerChar)))).map hyphenToSpace))) = true :=
      headNotSpace_strip _
    have h6last : lastNotSpace (stripList (collapseWs ((dotSub (collapseWs (stripList ((ud l).map pyLowerChar)))).map hyphenToSpace))) = true :=
      lastNotSpace_strip _
    have hdef : normalizeList ud true l =
        (if stripList (collapseWs ((dotSub (collapseWs (stripList ((ud l).map pyLowerChar)))).map hyphenToSpace)) = "avista".data
         then "a vista".data
         else stripList (collapseWs ((dotSub (collapseWs (stripList ((ud l).map pyLowerChar)))).map hyphenToSpace))) := rfl
    rw [hdef]
    by_cases hav : stripList (collapseWs ((dotSub (collapseWs (stripList ((ud l).map pyLowerChar)))).map hyphenToSpace)) = "avista".data
    · rw [if_pos hav]
      exact ⟨by decide, by decide, by decide, by decide, by decide, by decide,
        fun _ => by decide, by decide⟩
    · rw [if_neg hav]
      exact ⟨h6all, h6head, h6last, h6plain, h6two, h6ldl, fun _ => h6hyph, hav⟩

theorem normalizeList_eq_self (ud : List Char → List Char)
    (hud_id : ∀ l, l.all isAsciiChar = true → ud l = l)
    (remove_hyphens : Bool) (l : List Char)
    (hall : l.all stableChar = true) (hhead : headNotSpace l = true)
    (hlast : lastNotSpace l = true) (hplain : spacesArePlain l = true)
    (htwo : noTwoSpaces l = true) (hldl : noLetterDotLetter l = true)
    (hhyph : remove_hyphens = true → noHyphen l = true)
    (hav : l ≠ "avista".data) :
    normalizeList ud remove_hyphens l = l := by
  have hud : ud l = l := hud_id l (all_ascii_of_all_stable l hall)
  have hlow : l.map pyLowerChar = l := map_pyLowerChar_eq_self l hall
  have hstrip : stripList l = l := strip_eq_self l hhead hlast
  have hcoll : collapseWs l = l := (collapseGo_eq_self_spec l hplain htwo).1
  have hdot : dotSub l = l := dotSub_eq_self l hldl
  cases remove_hyphens with
  | false =>
    have hdef : normalizeList ud false l =
        (if dotSub (collapseWs (stripList ((ud l).map pyLowerChar))) = "avista".data
         then "a vista".data
         else dotSub (collapseWs (stripList ((ud l).map pyLowerChar)))) := rfl
    rw [hdef, hud, hlow, hstrip, hcoll, hdot, if_neg hav]
  | true =>
    have hmap : l.map hyphenToSpace = l := map_hyphen_eq_self l (hhyph rfl)
    have hdef : normalizeList ud true l =
        (if stripList (collapseWs ((dotSub (collapseWs (stripList ((ud l).map pyLowerChar)))).map hyphenToSpace)) = "avista".data
         then "a vista".data
         else stripList (collapseWs ((dotSub (collapseWs (stripList ((ud l).map pyLowerChar)))).map hyphenToSpace))) := rfl
    rw [hdef, hud, hlow, hstrip, hcoll, hdot, hmap, hcoll, hstrip, if_neg hav]

/-- C8: `normalize_string` is idempotent — normalizing an already
normalized string returns it unchanged, for every input string and both
values of the hyphen-removal flag, for any `unidecode` function that emits
ASCII and is the identity on ASCII (and likewise at the nullable Python
signature). -/
theorem c8_normalize_idempotent (ud : List Char → List Char)
    (hud_out : ∀ l, (ud l).all isAsciiChar = true)
    (hud_id : ∀ l, l.all isAsciiChar = true → ud l = l)
    (remove_hyphens : Bool) (s : String) :
    normalize_string_str ud remove_hyphens
        (normalize_string_str ud remove_hyphens s) =
      normalize_string_str ud remove_hyphens s ∧
    (∀ t : Option String,
      normalize_string ud remove_hyphens
          (normalize_string ud remove_hyphens t) =
        normalize_string ud remove_hyphens t) := by
  have key : ∀ l, normalizeList ud remove_hyphens (normalizeList ud remove_hyphens l) =
      normalizeList ud remove_hyphens l := by
    intro l
    obtain ⟨c1, c2, c3, c4, c5, c6, c7, c8⟩ :=
      normalizeList_normal_form ud hud_out remove_hyphens l
    exact normalizeList_eq_self ud hud_id remove_hyphens _ c1 c2 c3 c4 c5 c6 c7 c8
  have keystr : ∀ s2 : String, normalize_string_str ud remove_hyphens
      (normalize_string_str ud remove_hyphens s2) =
      normalize_string_str ud remove_hyphens s2 := by
    intro s2
    unfold normalize_string_str
    exact congrArg String.mk (key s2.data)
  refine ⟨keystr s, ?_⟩
  intro t
  cases t with
  | none => rfl
  | some s2 =>
    show some (normalize_string_str ud remove_hyphens
      (normalize_string_str ud remove_hyphens s2)) =
      some (normalize_string_str ud remove_hyphens s2)
    rw [keystr s2]

/-- C8 witness: the idempotence theorem applied to the concrete
`unidecode` model and a string exercising accents-free mixed case, dots,
hyphens and whitespace. -/
theorem c8_normalize_idempotent_witness :
    (∀ l, (ud_ascii_model l).all isAsciiChar = true) ∧
    (∀ l, l.all isAsciiChar = true → ud_ascii_model l = l) ∧
    normalize_string_str ud_ascii_model true
        (normalize_string_str ud_ascii_model true "  FS-Ouro. a.vista X ") =
      normalize_string_str ud_ascii_model true "  FS-Ouro. a.vista X " :=
  ⟨ud_ascii_model_all, ud_ascii_model_id,
   (c8_normalize_idempotent ud_ascii_model ud_ascii_model_all ud_ascii_model_id
      true "  FS-Ouro. a.vista X ").1⟩

end SalesAgent
